import Mathlib

/-!
Verification of the decision, guardrail-validation and pacing engine of the
twitter-automation repository.  Python sources are shallowly embedded:
strings are Lean `String`s (lists of unicode code points, as in Python),
Python `int` is `Int`, wall-clock seconds are `ℚ`, and the stateful
scheduler loop is a step relation.  Each definition carries a pointer to the
source file and lines it translates.
-/

namespace TwitterAuto

/-! ## Python string primitives

Helpers mirroring the Python `str` operations used by the sources:
`str.strip` / `str.rstrip` / `str.lstrip`, slicing `s[:n]`, `str.lower`,
substring containment `pat in s`, and `str.split`. -/

/-- Python `s[:n]`: the first `n` characters. -/
def pyTake (n : Nat) (s : String) : String := String.mk (s.toList.take n)

/-- Python `s.lower()` (ASCII case folding, which is all the sources rely on). -/
def pyLower (s : String) : String := String.mk (s.toList.map Char.toLower)

/-- Python `s.strip(chars)` generalised to a predicate: drop matching
characters from both ends. -/
def pyStripP (p : Char → Bool) (s : String) : String :=
  String.mk (((s.toList.dropWhile p).reverse.dropWhile p).reverse)

/-- Python `s.strip()`: whitespace removed from both ends. -/
def pyStrip (s : String) : String := pyStripP Char.isWhitespace s

/-- Python `s.rstrip()`: trailing whitespace removed. -/
def pyRstrip (s : String) : String :=
  String.mk ((s.toList.reverse.dropWhile Char.isWhitespace).reverse)

/-- Python `s.lstrip(c)` for a single character. -/
def pyLstripChar (c : Char) (s : String) : String :=
  String.mk (s.toList.dropWhile (fun d => d = c))

/-- Python `a or b` for strings: `b` when `a` is empty (falsy), else `a`. -/
def strOr (a b : String) : String := if a = "" then b else a

/-- Python `a or b` for an optional string (`None` and `""` are falsy). -/
def strOrElse (a : Option String) (b : String) : String :=
  match a with
  | some s => strOr s b
  | none => b

/-- Python `a or b` for an optional int (`None` and `0` are falsy). -/
def intOrElse (a : Option Int) (b : Int) : Int :=
  match a with
  | some n => if n = 0 then b else n
  | none => b

/-- Does `pat` occur at the start of `text`? -/
def startsWithSeq : List Char → List Char → Bool
  | [], _ => true
  | _ :: _, [] => false
  | p :: ps, c :: cs => p = c && startsWithSeq ps cs

/-- Python `pat in text`: does `pat` occur as a contiguous substring? -/
def containsSeq (pat : List Char) : List Char → Bool
  | [] => startsWithSeq pat []
  | c :: cs => startsWithSeq pat (c :: cs) || containsSeq pat cs

/-- Python `pat in s` on strings. -/
def strContains (pat s : String) : Bool := containsSeq pat.toList s.toList

theorem dropWhile_len_le (p : α → Bool) : ∀ l : List α, (l.dropWhile p).length ≤ l.length
  | [] => Nat.le_refl 0
  | a :: l => by
    rw [List.dropWhile_cons]
    by_cases h : p a = true
    · simp only [h, if_true]
      exact Nat.le_succ_of_le (dropWhile_len_le p l)
    · simp [h]

/-- Maximal runs of characters satisfying `p`, in order — auxiliary walker
carrying the (reversed) run currently being read. -/
def splitRunsAux (p : Char → Bool) : List Char → List Char → List (List Char)
  | [], acc => if acc = [] then [] else [acc.reverse]
  | c :: cs, acc =>
    if p c then splitRunsAux p cs (c :: acc)
    else if acc = [] then splitRunsAux p cs []
    else acc.reverse :: splitRunsAux p cs []

/-- Maximal runs of characters satisfying `p`, in order: the semantics of
`re.finditer` over a pattern matching one-or-more `p`-characters, and of
Python `str.split()` with `p` = non-whitespace. -/
def splitRuns (p : Char → Bool) (l : List Char) : List (List Char) :=
  splitRunsAux p l []

/-- Stable insertion of `x` after every already-placed element `y` with
`le y x`: the insertion step of a stable sort. -/
def stableInsert (le : α → α → Bool) (x : α) : List α → List α
  | [] => [x]
  | y :: ys => if le y x then y :: stableInsert le x ys else x :: y :: ys

/-- Python `sorted(l, ...)` as a stable insertion sort: elements are placed
in encounter order, each after all earlier elements that compare
less-or-equal, which reproduces CPython's stable sort for any total
preorder `le`. -/
def pySorted (le : α → α → Bool) (l : List α) : List α :=
  l.foldl (fun acc x => stableInsert le x acc) []

/-- Python `sep.join(items)`. -/
def joinSep (sep : String) : List String → String
  | [] => ""
  | [s] => s
  | s :: rest => s ++ sep ++ joinSep sep rest

/-- Python `s.split(sep)` for a non-empty separator, auxiliary walker. -/
def splitOnSeqAux (sep : List Char) : List Char → List Char → List (List Char)
  | [], acc => [acc.reverse]
  | c :: cs, acc =>
    if startsWithSeq sep (c :: cs) && !sep.isEmpty then
      acc.reverse :: splitOnSeqAux sep ((c :: cs).drop sep.length) []
    else
      splitOnSeqAux sep cs (c :: acc)
termination_by l _ => l.length
decreasing_by
  · simp only [List.length_drop, List.length_cons]
    rename_i hcond
    have hsep : sep.length ≠ 0 := by
      rcases sep with _ | ⟨x, xs⟩
      · simp [List.isEmpty] at hcond
      · simp
    omega
  · simp

/-- Python `s.split(sep)`. -/
def splitOnSeq (sep : List Char) (l : List Char) : List (List Char) :=
  splitOnSeqAux sep l []

/-! ## utils/text_utils.py -/

/-- `_TOKEN_PATTERN = re.compile(r"[A-Za-z0-9']+")`: character class of the
token pattern (text_utils.py line 12). -/
def isTokenChar (c : Char) : Bool := c.isAlphanum || c = '\''

/-- `_STOPWORDS` (text_utils.py lines 15-83). -/
def STOPWORDS : List String :=
  ["a", "an", "and", "are", "as", "at", "be", "but", "by", "for", "from",
   "has", "have", "he", "her", "hers", "him", "his", "how", "i", "if", "in",
   "is", "it", "its", "it's", "just", "me", "my", "of", "on", "or", "our",
   "ours", "she", "so", "than", "that", "the", "their", "them", "there",
   "these", "they", "this", "those", "to", "too", "up", "was", "we", "were",
   "what", "when", "where", "which", "who", "will", "with", "you", "your",
   "you're", "amp", "rt", "http", "https", "www"]

/-- `_tokenize` (text_utils.py lines 115-118): lowercased maximal matches of
the token pattern. -/
def py_tokenize (text : String) : List String :=
  (splitRuns isTokenChar text.toList).map (fun run => String.mk (run.map Char.toLower))

/-- `tokenize_for_overlap` (text_utils.py lines 121-127).  Python returns a
set; membership is all callers use, so the filtered token list stands in for
it. -/
def tokenize_for_overlap (text : String) : List String :=
  (py_tokenize text).filter (fun t => decide (2 < t.length) && !(STOPWORDS.contains t))

/-- Tokens kept by the counting loop of `extract_keywords_from_texts`
(text_utils.py lines 140-144): length above 2 and not a stopword. -/
def keptToken (t : String) : Bool := decide (2 < t.length) && !(STOPWORDS.contains t)

/-- The stream of counted tokens, in encounter order (text_utils.py
lines 138-144). -/
def tokenStream (texts : List String) : List String :=
  (texts.flatMap py_tokenize).filter keptToken

/-- One `counter[token] += 1` step on an insertion-ordered tally. -/
def bumpCount : List (String × Nat) → String → List (String × Nat)
  | [], t => [(t, 1)]
  | (s, n) :: rest, t =>
    if s = t then (s, n + 1) :: rest else (s, n) :: bumpCount rest t

/-- `collections.Counter` of the kept tokens, keys in first-occurrence order
(text_utils.py lines 137-144). -/
def tallyTokens (texts : List String) : List (String × Nat) :=
  (tokenStream texts).foldl bumpCount []

/-- `counter[t]` lookup. -/
def countOf (tally : List (String × Nat)) (t : String) : Nat :=
  match tally.lookup t with
  | some n => n
  | none => 0

/-- Lexicographic code-point comparison of strings, Python `a < b`. -/
def strLtB : List Char → List Char → Bool
  | [], [] => false
  | [], _ :: _ => true
  | _ :: _, [] => false
  | a :: as, b :: bs => decide (a.toNat < b.toNat) || (a = b && strLtB as bs)

/-- The order actually produced by
`sorted(filtered, key=lambda t: (counter[t], -len(t), t), reverse=True)`
(text_utils.py lines 150-154): `a` comes no later than `b` iff the key tuple
of `a` is ≥ that of `b` — count descending, then length ascending (because
`-len` is reversed), then code-point order descending. -/
def keywordSortLE (cnt : String → Nat) (a b : String) : Bool :=
  if cnt a ≠ cnt b then decide (cnt b < cnt a)
  else if a.length ≠ b.length then decide (a.length < b.length)
  else strLtB b.toList a.toList || a = b

/-- The candidate tokens handed to the sort (text_utils.py lines 147-149):
tokens meeting `min_frequency`, falling back to all counted tokens when that
filter empties the list. -/
def keywordPool (tally : List (String × Nat)) (min_frequency : Nat) : List String :=
  let filtered := (tally.filter (fun p => decide (min_frequency ≤ p.2))).map Prod.fst
  if filtered = [] then tally.map Prod.fst else filtered

/-- `extract_keywords_from_texts` (text_utils.py lines 130-155).  Defaults in
the source are `max_keywords=8`, `min_frequency=1`. -/
def extract_keywords_from_texts (texts : List String) (max_keywords min_frequency : Nat) :
    List String :=
  let tally := tallyTokens texts
  if tally = [] then []
  else
    (pySorted (keywordSortLE (countOf tally)) (keywordPool tally min_frequency)).take
      max_keywords

/-- The ordering the specification describes instead: frequency descending,
ties broken by the longer token first, then lexicographic (ascending) order.
Second definition written from the spec's words, for comparison with
`extract_keywords_from_texts`. -/
def keywordSpecLE (cnt : String → Nat) (a b : String) : Bool :=
  if cnt a ≠ cnt b then decide (cnt b < cnt a)
  else if a.length ≠ b.length then decide (b.length < a.length)
  else strLtB a.toList b.toList || a = b

/-- Keyword extraction as the spec words it (same tally, spec's tie-breaks). -/
def keywords_spec_order (texts : List String) (max_keywords min_frequency : Nat) :
    List String :=
  let tally := tallyTokens texts
  if tally = [] then []
  else
    (pySorted (keywordSpecLE (countOf tally)) (keywordPool tally min_frequency)).take
      max_keywords

/-! ## features/publisher/reply_generator.py -/

/-- `MAX_REPLY_CHARS` (reply_generator.py line 23). -/
def MAX_REPLY_CHARS : Nat := 270

/-- `DEFAULT_OFF_TOPIC_TERMS` (reply_generator.py lines 24-41). -/
def DEFAULT_OFF_TOPIC_TERMS : List String :=
  ["claude", "anthropic", "openai", "chatgpt", "opencv", "repo",
   "pull request", "merge request", "commit", "stack trace", "stacktrace",
   "exception", "bugfix", "script", "terminal", "command line"]

/-- `_find_off_topic_terms` (reply_generator.py lines 92-104): a default-list
term is flagged when it occurs as a substring of the lowercased reply and is
neither one of the lowercased `allowed_terms` nor one of the tweet's
normalized overlap tokens. -/
def find_off_topic_terms (reply_text tweet_text : String) (allowed_terms : List String) :
    List String :=
  let replyLower := pyLower reply_text
  let allowed := allowed_terms.map pyLower ++ tokenize_for_overlap tweet_text
  DEFAULT_OFF_TOPIC_TERMS.filter
    (fun term => strContains term replyLower && !(allowed.contains term))

/-- One outcome of `llm_service.generate_structured` (reply_generator.py
lines 347-357): either no usable structured mapping (`data` falsy or not a
dict, with the error string, line 359-360), or a structured mapping with the
fields the guard reads.  Optional fields model `dict.get` returning `None`. -/
inductive GenOutcome where
  | failure (err : Option String)
  | structured (reply_text : Option String) (is_relevant : Bool)
      (relevance_reason : Option String) (referenced_topics : List String)
deriving DecidableEq, Repr

/-- The metadata dict returned by `generate_guarded_reply` (reply_generator.py
lines 397-402 and 414-419). -/
structure GuardMetadata where
  relevance_reason : String
  referenced_topics : List String
  attempts : Nat
  flagged_terms : List String
deriving DecidableEq, Repr

/-- Return value of `generate_guarded_reply`, instrumented with `calls`, the
number of `generate_structured` invocations made (one per loop iteration,
line 347). -/
structure GuardOutput where
  reply : Option String
  metadata : GuardMetadata
  calls : Nat
deriving DecidableEq, Repr

/-- `max_attempts = max(1, retry_limit)` (reply_generator.py line 315). -/
def maxAttempts (retry_limit : Int) : Nat := (max 1 retry_limit).toNat

/-- The validation performed on one `generate_structured` outcome
(reply_generator.py lines 359-388): either a failure reason that becomes the
next attempt's feedback (`.inl`), or the accepted trimmed reply with its
relevance reason and referenced topics (`.inr`), exactly the branch chain of
lines 359-363 and 378-403. -/
def guardStep (outcome : GenOutcome) (tweet_text : String) (focus_keywords : List String) :
    String ⊕ (String × String × List String) :=
  match outcome with
  | .failure err => .inl (strOrElse err "No structured response produced.")
  | .structured rt irel rr topics =>
    let replyText0 := pyStrip (rt.getD "")
    let replyText :=
      if replyText0 ≠ "" then pyRstrip (pyTake MAX_REPLY_CHARS replyText0)
      else replyText0
    let relevanceReason := pyStrip (rr.getD "")
    let flaggedTerms :=
      if replyText ≠ "" then find_off_topic_terms replyText tweet_text focus_keywords
      else []
    let tooLong := replyText ≠ "" && decide (MAX_REPLY_CHARS < replyText.length)
    if replyText = "" then .inl "No reply text returned."
    else if tooLong then .inl "Reply exceeded character limit."
    else if !irel then .inl (strOr relevanceReason "Model flagged reply as not relevant.")
    else if flaggedTerms ≠ [] then
      .inl ("Reply referenced off-topic terms: " ++ joinSep ", " flaggedTerms ++ ".")
    else .inr (replyText, relevanceReason, topics)

/-- The retry loop of `generate_guarded_reply` (reply_generator.py
lines 316-420).  `oracle` abstracts `llm_service.generate_structured` per
attempt index; `fuel = max_attempts - attempt` drives the `while` guard of
line 316.  Each iteration consumes one oracle call and either accepts
(lines 389-403) or records a failure reason and retries; exhaustion returns
the failure metadata of lines 414-420. -/
def guardLoop (oracle : Nat → GenOutcome) (tweet_text : String)
    (focus_keywords : List String) :
    Nat → Nat → Option String → GuardOutput
  | attempt, 0, lastError =>
    { reply := none
      metadata :=
        { relevance_reason := strOrElse lastError "Unknown guard failure."
          referenced_topics := []
          attempts := attempt
          flagged_terms := [] }
      calls := attempt }
  | attempt, fuel + 1, lastError =>
    match guardStep (oracle attempt) tweet_text focus_keywords with
    | .inl reason =>
      guardLoop oracle tweet_text focus_keywords (attempt + 1) fuel (some reason)
    | .inr (replyText, relevanceReason, topics) =>
      { reply := some replyText
        metadata :=
          { relevance_reason := relevanceReason
            referenced_topics := topics
            attempts := attempt + 1
            flagged_terms := [] }
        calls := attempt + 1 }

/-- `generate_guarded_reply` (reply_generator.py lines 260-420): the tweet
text is stripped and its top-6 keywords extracted by `_prepare_tweet_context`
(lines 53-55, 274-275), then the guarded retry loop runs for
`max(1, retry_limit)` attempts.  Instruction building, inline media and
logging do not affect the guard decisions and are abstracted into the
per-attempt `oracle`. -/
def generate_guarded_reply (oracle : Nat → GenOutcome) (tweet_text_content : String)
    (retry_limit : Int) : GuardOutput :=
  let text := pyStrip tweet_text_content
  let focus_keywords := extract_keywords_from_texts [text] 6 1
  guardLoop oracle text focus_keywords 0 (maxAttempts retry_limit) none

/-! ## features/publisher/style_utils.py -/

/-- The fields of `ScrapedTweet` that `build_style_snapshot` reads.
`created_at` is an epoch-seconds timestamp or `None`. -/
structure StylePost where
  tweet_id : String
  user_handle : String
  text_content : String
  created_at : Option Int
  embedded_media_urls : List String
deriving DecidableEq, Repr

/-- `_normalize_handle` (style_utils.py lines 15-26). -/
def normalize_handle (value : String) : Option String :=
  if value = "" then none
  else
    let text := pyLstripChar '@' (pyStrip value)
    if text = "" then none
    else
      let text := pyStripP (fun c => c = '/') (String.mk (text.toList.takeWhile (fun c => c ≠ '?')))
      let text :=
        if startsWithSeq "https://".toList (pyLower text).toList then
          let parts := splitOnSeq "x.com/".toList text.toList
          if 1 < parts.length then String.mk (parts.getLastD [])
          else text
        else text
      let lowered := pyLower text
      if lowered = "" then none else some lowered

/-- `filter_to_self_posts` (style_utils.py lines 29-51), `minimum = 3`. -/
def filter_to_self_posts (tweets : List StylePost) (candidate_handles : List String) :
    List StylePost :=
  let allowed := (candidate_handles.filterMap normalize_handle)
  if allowed = [] then tweets
  else
    let filtered := tweets.filter
      (fun t => match normalize_handle t.user_handle with
                | some h => allowed.contains h
                | none => false)
    if 3 ≤ filtered.length then filtered else tweets

/-- Deduplication by `tweet_id` with a seen-set (style_utils.py lines 66-73);
a falsy (empty) id is skipped. -/
def dedupById : List StylePost → List String → List StylePost
  | [], _ => []
  | t :: rest, seen =>
    if t.tweet_id = "" || seen.contains t.tweet_id then dedupById rest seen
    else t :: dedupById rest (t.tweet_id :: seen)

/-- `datetime.min` sentinel used as sort key for posts lacking a timestamp
(style_utils.py line 78): epoch seconds of 0001-01-01T00:00:00Z. -/
def epochGuard : Int := -62135596800

/-- Sort key of line 79: `created_at or epoch_guard`. -/
def sortKeyCreated (t : StylePost) : Int := t.created_at.getD epochGuard

/-- `deduped.sort(key=..., reverse=True)` (style_utils.py line 79): a stable
sort, descending by timestamp. -/
def sortByCreatedDesc (l : List StylePost) : List StylePost :=
  pySorted (fun a b => decide (sortKeyCreated b ≤ sortKeyCreated a)) l

/-- `" ".join(text_raw.split())[:220]` (style_utils.py line 88): whitespace
collapsed, then capped at 220 characters. -/
def snippet_of (text_raw : String) : String :=
  pyTake 220 (joinSep " " ((splitRuns (fun c => !c.isWhitespace) text_raw.toList).map String.mk))

/-- Timestamp label of lines 90-99: `strftime("%Y-%m-%d %H:%M UTC")` for a
present timestamp — modelled by the `labelOf` parameter, an uninterpreted
formatter — and the literal `"Unknown time"` otherwise. -/
def timestamp_label (labelOf : Int → String) : Option Int → String
  | some ts => labelOf ts
  | none => "Unknown time"

/-- One context line of lines 110-112: `f"{idx}. {timestamp_label} | {snippet}"`. -/
def context_line (labelOf : Int → String) (idx : Nat) (t : StylePost) : String :=
  toString idx ++ ". " ++ timestamp_label labelOf t.created_at ++ " | " ++ snippet_of t.text_content

/-- The 800-character cap of style_utils.py lines 128-129:
`style_context_text[:800].rstrip() + "…"` when over the cap. -/
def capAt800 (s : String) : String :=
  if 800 < s.length then pyRstrip (pyTake 800 s) ++ "…" else s

/-- The `style_context_text` computed by `build_style_snapshot`
(style_utils.py lines 60-129): empty on empty input or empty dedup, else the
header plus one summary line per selected post, truncated at 800 characters
with a rstrip and an appended ellipsis when over the cap (lines 127-129).
The keyword/tone/media aggregation of lines 131-151 does not feed back into
this text and is omitted here. -/
def build_style_context_text (labelOf : Int → String) (tweets : List StylePost)
    (candidate_handles : List String) (max_items : Nat) : String :=
  if tweets = [] then ""
  else
    let relevant := filter_to_self_posts tweets candidate_handles
    let deduped := dedupById relevant []
    if deduped = [] then ""
    else
      let selected := (sortByCreatedDesc deduped).take max_items
      let contextLines := selected.enum.map (fun p => context_line labelOf (p.1 + 1) p.2)
      capAt800 ("Recent personal posting snapshot:\n" ++ joinSep "\n" contextLines)

/-! ## core/llm_service/generator.py -/

/-- Outcome of attempting one backend inside the router loop of
`TextGenerator.generate_text` (generator.py lines 80-183):
`skipped` covers an unknown service name (lines 176-178), a missing client
(line 179-180) and a missing Azure deployment name (lines 138-140);
`raised` is an exception from the invocation, caught at lines 182-183;
`produced t` is a returned text. -/
inductive BackendOutcome where
  | skipped
  | raised
  | produced (text : String)
deriving DecidableEq, Repr

/-- The attempt order (generator.py lines 72-76): a preferred service already
in the configured order is moved to the front; an unlisted preference is
prepended. -/
def services_to_try (order : List String) (pref : Option String) : List String :=
  match pref with
  | none => order
  | some p => if order.contains p then p :: order.erase p else p :: order

/-- The fallback walk of the `for service_name in services_to_try` loop
(generator.py lines 80-186): first produced text wins; skipped or raising
backends are passed over; `None` after the list is exhausted (line 186). -/
def route_generate (invoke : String → BackendOutcome) : List String → Option String
  | [] => none
  | svc :: rest =>
    match invoke svc with
    | .produced t => some t
    | _ => route_generate invoke rest

/-- `TextGenerator.generate_text` (generator.py lines 63-186), with the
per-backend client calls abstracted into `invoke`. -/
def generate_text (invoke : String → BackendOutcome) (order : List String)
    (pref : Option String) : Option String :=
  route_generate invoke (services_to_try order pref)

/-! ## main.py: decision engine -/

/-- Sentiment resolution in the fallback path of `_decide_competitor_action`
(main.py lines 559-564): neutral when sentiment is disabled, and neutral when
the classifier raised (modelled as `none`). -/
def resolved_sentiment (useSentiment : Bool) (classified : Option String) : String :=
  if useSentiment then
    match classified with
    | some s => s
    | none => "neutral"
  else "neutral"

/-- `sentiment in ('positive', 'neutral')` (main.py lines 566-568). -/
def favorable (s : String) : Bool := s = "positive" || s = "neutral"

/-- The manual threshold fallback of `_decide_competitor_action`
(main.py lines 565-572). -/
def decide_fallback (quote_min retweet_min repost_min rel : ℚ) (sentiment : String) :
    String :=
  if decide (quote_min ≤ rel) && favorable sentiment then "quote_tweet"
  else if decide (retweet_min ≤ rel) && favorable sentiment then "retweet"
  else if decide (repost_min ≤ rel) then "repost"
  else "like"

/-- The structured-analysis result consumed at main.py lines 548-556, present
only when the analyzer returned a dict containing `recommended_action`.
`relevance` models `float(structured.get('relevance', 0.0) or 0.0)`. -/
structure StructuredAnalysis where
  relevance : ℚ
  recommended_action : String
deriving DecidableEq, Repr

/-- Threshold precedence: per-account override, else global config, else the
hardcoded default (main.py lines 540-543). -/
def resolve_threshold (acct global_cfg : Option ℚ) (dflt : ℚ) : ℚ :=
  match acct with
  | some v => v
  | none => global_cfg.getD dflt

/-- `_decide_competitor_action` (main.py lines 532-572) with the analyzer
collaborator abstracted: `structured` is its structured analysis (when one
with a recommendation arrived), `fallback_rel` the `score_relevance` result
and `sentiment` the already-resolved sentiment string of the fallback path. -/
def decide_competitor_action (decision_enabled : Bool) (default_interaction : String)
    (structured : Option StructuredAnalysis) (fallback_rel : ℚ) (sentiment : String)
    (quote_min retweet_min repost_min : ℚ) : String :=
  if !decision_enabled then default_interaction
  else
    let fallback := decide_fallback quote_min retweet_min repost_min fallback_rel sentiment
    match structured with
    | some sa =>
      let recAction := pyLower sa.recommended_action
      if decide (sa.relevance < repost_min) then "like"
      else if recAction = "quote_tweet" || recAction = "retweet" ||
              recAction = "repost" || recAction = "like" then recAction
      else fallback
    | none => fallback

/-! ## main.py: rate-limited home-timeline reply session (lines 180-530)

The session loop mixes wall-clock reads, sleeps and randomness, so it is
embedded as a step relation over an explicit state.  Times are rational
seconds.  Every side condition of a constructor is the translation of a
concrete guard in `_run_home_timeline_replies`. -/

/-- `action_key = f"home_reply_{account.account_id}_{candidate.tweet_id}"`
(main.py line 396). -/
def home_reply_action_key (account_id tweet_id : String) : String :=
  "home_reply_" ++ account_id ++ "_" ++ tweet_id

/-- `replies_per_hour = max(1, action_config.home_timeline_replies_per_hour or 10)`
(main.py line 191). -/
def effective_replies_per_hour (cfg : Option Int) : Nat :=
  (max 1 (intOrElse cfg 10)).toNat

/-- `max_hours = max(1, action_config.home_timeline_max_hours or 3)`
(main.py line 192). -/
def effective_max_hours (cfg : Option Int) : Nat :=
  (max 1 (intOrElse cfg 3)).toNat

/-- `min_delay = max(10, ...min_delay_between_actions_seconds)` (main.py line 194). -/
def effective_min_delay (cfg : ℚ) : ℚ := max 10 cfg

/-- `max_delay = max(min_delay, ...max_delay_between_actions_seconds)` (main.py line 195). -/
def effective_max_delay (min_delay cfg : ℚ) : ℚ := max min_delay cfg

/-- Session parameters of `_run_home_timeline_replies` after the
normalisation of main.py lines 191-198.  `isOwn` abstracts `_is_own_tweet`. -/
structure PacingParams where
  repliesPerHour : Nat
  maxHours : Nat
  minDelay : ℚ
  maxDelay : ℚ
  sessionEnd : ℚ
  accountId : String
  isOwn : String → Bool

/-- `total_cap = replies_per_hour * max_hours` (main.py line 193). -/
def total_cap (p : PacingParams) : Nat := p.repliesPerHour * p.maxHours

/-- `per_reply_target_seconds = 3600.0 / replies_per_hour` (main.py line 320). -/
def per_reply_target (p : PacingParams) : ℚ := 3600 / p.repliesPerHour

/-- `spacing_min_seconds = max(min_delay, per_reply_target_seconds)` (main.py line 321). -/
def spacing_min (p : PacingParams) : ℚ := max p.minDelay (per_reply_target p)

/-- `spacing_max_seconds` derivation (main.py lines 322-328). -/
def spacing_max (p : PacingParams) : ℚ :=
  let smin := spacing_min p
  let smax := if p.maxDelay < smin then smin + max 30 (smin * (15 / 100)) else p.maxDelay
  if smax - smin < 1 then smin + max 5 (smin * (5 / 100)) else smax

/-- Mutable session state of the main loop: `now` (wall clock),
`current_hour_start`, `replies_this_hour`, `replies_sent_total`,
`next_reply_earliest` (main.py lines 197-201, 330) and the in-memory
`processed_action_keys` set (main.py lines 41, 397, 516). -/
structure SchedState where
  now : ℚ
  hourStart : ℚ
  repliesThisHour : Nat
  repliesTotal : Nat
  nextEarliest : ℚ
  processed : List String

/-- One successful home-timeline reply: the executor returned `True` at the
stated wall-clock time and the stated dedup key was recorded. -/
structure ReplyEvent where
  time : ℚ
  key : String

/-- A run of the `while replies_sent_total < total_cap` loop of
`_run_home_timeline_replies` (main.py lines 335-530), related to the list of
successful replies it performs.  Constructors:

* `halt` — any loop exit (session end at line 337, empty batch at line 374,
  barren batch at line 528, cap reached at line 335);
* `advanceTime` — the wall clock only moves forward between reads;
* `hourWindowReset` — lines 341-344: once an hour has elapsed since
  `hourStart`, the window restarts and the hour counter zeroes;
* `hourlyCooldown` — lines 346-366: with the hour cap met, sleep (to `n'`),
  then `next_reply_earliest = max(next_reply_earliest, now)`, restart window;
* `successfulReply` at start time `t`, completion `tc`, drawn delay `d` —
  lines 386-518: reachable only when the session guard (line 335), hour
  guard (lines 346, 387), candidate eligibility (lines 390-397) and pacing
  wait (lines 470-477) pass; it bumps both counters (lines 493-494), records
  the dedup key (lines 515-516) and schedules
  `next_reply_earliest = tc + d` (lines 485-487);
* `failedReply` — executor returned `False` (line 519): pacing moves the
  same way (lines 485-487) but no counter or key is touched. -/
inductive SessionRun (p : PacingParams) : SchedState → List ReplyEvent → SchedState → Prop
  | halt (s : SchedState) : SessionRun p s [] s
  | advanceTime {s : SchedState} {evs : List ReplyEvent} {s' : SchedState} (n' : ℚ) :
      s.now ≤ n' →
      SessionRun p { s with now := n' } evs s' →
      SessionRun p s evs s'
  | hourWindowReset {s : SchedState} {evs : List ReplyEvent} {s' : SchedState} :
      3600 ≤ s.now - s.hourStart →
      SessionRun p { s with hourStart := s.now, repliesThisHour := 0 } evs s' →
      SessionRun p s evs s'
  | hourlyCooldown {s : SchedState} {evs : List ReplyEvent} {s' : SchedState} (n' : ℚ) :
      p.repliesPerHour ≤ s.repliesThisHour →
      s.now ≤ n' →
      SessionRun p { s with now := n', hourStart := n', repliesThisHour := 0,
                            nextEarliest := max s.nextEarliest n' } evs s' →
      SessionRun p s evs s'
  | successfulReply {s : SchedState} {evs : List ReplyEvent} {s' : SchedState}
      (t tc d : ℚ) (tweet_id handle : String) :
      s.repliesTotal < total_cap p →
      s.repliesThisHour < p.repliesPerHour →
      tweet_id ≠ "" →
      p.isOwn handle = false →
      ¬ s.processed.contains (home_reply_action_key p.accountId tweet_id) →
      s.now ≤ t →
      s.nextEarliest ≤ t →
      t ≤ tc →
      spacing_min p ≤ d →
      d ≤ spacing_max p →
      SessionRun p
        { now := tc, hourStart := s.hourStart,
          repliesThisHour := s.repliesThisHour + 1,
          repliesTotal := s.repliesTotal + 1,
          nextEarliest := tc + d,
          processed := home_reply_action_key p.accountId tweet_id :: s.processed }
        evs s' →
      SessionRun p s (⟨t, home_reply_action_key p.accountId tweet_id⟩ :: evs) s'
  | failedReply {s : SchedState} {evs : List ReplyEvent} {s' : SchedState} (t tc d : ℚ) :
      s.repliesTotal < total_cap p →
      s.repliesThisHour < p.repliesPerHour →
      s.now ≤ t →
      s.nextEarliest ≤ t →
      t ≤ tc →
      spacing_min p ≤ d →
      d ≤ spacing_max p →
      SessionRun p { s with now := tc, nextEarliest := tc + d } evs s' →
      SessionRun p s evs s'

/-- The session-initial state (main.py lines 197-201, 330): clocks at the
session start, counters zero, and `processed` freshly loaded from the dedup
store.  Modelled from the spec: `FileHandler.load_processed_action_keys` and
`save_processed_action_key` are not part of the provided sources; per §3 and
§6 of the spec the store is an append-only set of keys, loaded once at
session start, written immediately after each successful action — so a
session starts from the persisted key set and persists exactly the keys it
records in memory. -/
def initialState (start : ℚ) (store : List String) : SchedState :=
  { now := start, hourStart := start, repliesThisHour := 0, repliesTotal := 0,
    nextEarliest := start, processed := store }

/-- A sequence of sessions threaded through the persistent dedup store.
Modelled from the spec (§3 Dedup Store, §8): each session loads the store,
runs, and the store afterwards holds what the session's in-memory set holds,
because every successful action saved its key immediately. -/
inductive MultiSessionRun (p : PacingParams) :
    List String → List ReplyEvent → List String → Prop
  | nil (store : List String) : MultiSessionRun p store [] store
  | cons {store : List String} {evs rest : List ReplyEvent} {store' : List String}
      (start : ℚ) (s1 : SchedState) :
      SessionRun p (initialState start store) evs s1 →
      MultiSessionRun p s1.processed rest store' →
      MultiSessionRun p store (evs ++ rest) store'

/-! ## Guard-loop lemmas (claims C1, C2, C10) -/

theorem pyTake_length_le (n : Nat) (s : String) : (pyTake n s).length ≤ n := by
  have h : (pyTake n s).length = (s.toList.take n).length := rfl
  rw [h, List.length_take]
  exact Nat.min_le_left _ _

theorem pyRstrip_length_le (s : String) : (pyRstrip s).length ≤ s.length := by
  have h : (pyRstrip s).length = ((s.toList.reverse.dropWhile Char.isWhitespace).reverse).length := rfl
  have h2 : s.length = s.toList.length := rfl
  rw [h, h2, List.length_reverse]
  calc (s.toList.reverse.dropWhile Char.isWhitespace).length
      ≤ s.toList.reverse.length := dropWhile_len_le _ _
    _ = s.toList.length := List.length_reverse _

/-- An accepted validation step returns a reply already trimmed to the hard
character limit. -/
theorem guardStep_accept_length (o : GenOutcome) (tt : String) (fk : List String)
    (r reason : String) (tops : List String)
    (h : guardStep o tt fk = .inr (r, reason, tops)) : r.length ≤ MAX_REPLY_CHARS := by
  cases o with
  | failure err => simp [guardStep] at h
  | structured rt irel rr topics =>
    by_cases h0 : pyStrip (rt.getD "") = ""
    · simp [guardStep, h0] at h
    · have hbound : (pyRstrip (pyTake MAX_REPLY_CHARS (pyStrip (rt.getD "")))).length ≤
          MAX_REPLY_CHARS :=
        le_trans (pyRstrip_length_le _) (pyTake_length_le _ _)
      simp only [guardStep, h0] at h
      split_ifs at h <;> simp_all

/-- Combined invariant of the retry loop: the reported attempt count is
exactly the number of oracle calls, bounded by the remaining fuel, at least
one call is made when fuel remains, and any accepted reply has been trimmed
to the hard character limit. -/
theorem guardLoop_spec (oracle : Nat → GenOutcome) (tt : String) (fk : List String) :
    ∀ (fuel attempt : Nat) (lastE : Option String),
      (guardLoop oracle tt fk attempt fuel lastE).metadata.attempts =
        (guardLoop oracle tt fk attempt fuel lastE).calls ∧
      attempt ≤ (guardLoop oracle tt fk attempt fuel lastE).calls ∧
      (guardLoop oracle tt fk attempt fuel lastE).calls ≤ attempt + fuel ∧
      (1 ≤ fuel → attempt + 1 ≤ (guardLoop oracle tt fk attempt fuel lastE).calls) ∧
      (∀ s, (guardLoop oracle tt fk attempt fuel lastE).reply = some s →
        s.length ≤ MAX_REPLY_CHARS) := by
  intro fuel
  induction fuel with
  | zero =>
    intro attempt lastE
    refine ⟨rfl, Nat.le_refl _, Nat.le_add_right _ _, by omega, ?_⟩
    intro s hs
    simp [guardLoop] at hs
  | succ fuel ih =>
    intro attempt lastE
    cases h : guardStep (oracle attempt) tt fk with
    | inl reason =>
      have heq : guardLoop oracle tt fk attempt (fuel + 1) lastE =
          guardLoop oracle tt fk (attempt + 1) fuel (some reason) := by
        rw [guardLoop, h]
      rw [heq]
      obtain ⟨h1, h2, h3, _, h5⟩ := ih (attempt + 1) (some reason)
      exact ⟨h1, by omega, by omega, fun _ => h2, h5⟩
    | inr acc =>
      obtain ⟨replyText, relevanceReason, topics⟩ := acc
      have heq : guardLoop oracle tt fk attempt (fuel + 1) lastE =
          { reply := some replyText
            metadata :=
              { relevance_reason := relevanceReason
                referenced_topics := topics
                attempts := attempt + 1
                flagged_terms := [] }
            calls := attempt + 1 } := by
        rw [guardLoop, h]
      rw [heq]
      refine ⟨rfl, Nat.le_succ _, ?_, fun _ => Nat.le_refl _, ?_⟩
      · show attempt + 1 ≤ attempt + (fuel + 1)
        omega
      · intro s hs
        simp only [Option.some.injEq] at hs
        subst hs
        exact guardStep_accept_length _ tt fk _ _ _ h

/-- C1, counterexample: with `retry_limit = 0` the guard still makes one
generation call and reports `attempts = 1`, which exceeds the `retry_limit`
argument — refuting "this count never exceeds the retry_limit argument". -/
theorem C1_counterexample :
    (generate_guarded_reply (fun _ => .failure none) "hello tweet" 0).calls = 1 ∧
    (generate_guarded_reply (fun _ => .failure none) "hello tweet" 0).metadata.attempts = 1 ∧
    ¬ ((1 : Int) ≤ 0) := by
  refine ⟨by decide, by decide, by decide⟩

/-- C1, amended: for every call to `generate_guarded_reply`, the `attempts`
field of the returned metadata equals the number of `generate_structured`
calls made during that invocation, and this count never exceeds
`max(1, retry_limit)`. -/
theorem C1_attempts_equal_calls (oracle : Nat → GenOutcome) (text : String) (rl : Int) :
    (generate_guarded_reply oracle text rl).metadata.attempts =
      (generate_guarded_reply oracle text rl).calls ∧
    (generate_guarded_reply oracle text rl).calls ≤ maxAttempts rl := by
  have h := guardLoop_spec oracle (pyStrip text)
    (extract_keywords_from_texts [pyStrip text] 6 1) (maxAttempts rl) 0 none
  exact ⟨h.1, by have := h.2.2.1; simpa using this⟩

/-- C2: every accepted (non-`None`) guarded reply has length at most 270. -/
theorem C2_accepted_reply_le_270 (oracle : Nat → GenOutcome) (text : String) (rl : Int)
    (s : String) (hs : (generate_guarded_reply oracle text rl).reply = some s) :
    s.length ≤ 270 := by
  have h := guardLoop_spec oracle (pyStrip text)
    (extract_keywords_from_texts [pyStrip text] 6 1) (maxAttempts rl) 0 none
  exact h.2.2.2.2 s hs

/-- Oracle used by the C2 witness: the first-attempt success of the
repository's own test `test_generate_guarded_reply_success_on_first_attempt`. -/
def goodOracle : Nat → GenOutcome :=
  fun _ => .structured (some "Congrats on the AI launch!") true
    (some "Mentions the announcement") ["ai", "launch"]

/-- C2 witness: a concrete accepted run, with the theorem applied to it. -/
theorem C2_accepted_reply_le_270_witness :
    (generate_guarded_reply goodOracle "AI launch today" 2).reply =
      some "Congrats on the AI launch!" ∧
    ("Congrats on the AI launch!" : String).length ≤ 270 :=
  ⟨by decide, C2_accepted_reply_le_270 goodOracle "AI launch today" 2
    "Congrats on the AI launch!" (by decide)⟩

/-- C10: for `retry_limit ≤ 0` the pipeline still performs exactly one
generation attempt and reports `attempts = 1`; for every `retry_limit` the
reported `attempts` is at least 1. -/
theorem C10_at_least_one_attempt (oracle : Nat → GenOutcome) (text : String) (rl : Int) :
    (rl ≤ 0 →
      (generate_guarded_reply oracle text rl).calls = 1 ∧
      (generate_guarded_reply oracle text rl).metadata.attempts = 1) ∧
    1 ≤ (generate_guarded_reply oracle text rl).metadata.attempts := by
  have hma : 1 ≤ maxAttempts rl := by
    have h1 : (1 : Int) ≤ max 1 rl := le_max_left 1 rl
    have h2 : (1 : Int).toNat ≤ (max 1 rl).toNat := Int.toNat_le_toNat h1
    simpa [maxAttempts] using h2
  constructor
  · intro hrl
    have hone : maxAttempts rl = 1 := by
      have hm : max 1 rl = 1 := by
        rcases max_choice 1 rl with h1 | h1
        · exact h1
        · have := le_max_left 1 rl
          omega
      simp [maxAttempts, hm]
    have h := guardLoop_spec oracle (pyStrip text)
      (extract_keywords_from_texts [pyStrip text] 6 1) 1 0 none
    have hle : (guardLoop oracle (pyStrip text)
        (extract_keywords_from_texts [pyStrip text] 6 1) 0 1 none).calls ≤ 1 := by
      have := h.2.2.1
      omega
    have hge : 1 ≤ (guardLoop oracle (pyStrip text)
        (extract_keywords_from_texts [pyStrip text] 6 1) 0 1 none).calls :=
      h.2.2.2.1 (Nat.le_refl 1)
    have hc : (guardLoop oracle (pyStrip text)
        (extract_keywords_from_texts [pyStrip text] 6 1) 0 1 none).calls = 1 :=
      Nat.le_antisymm hle hge
    have hgen : generate_guarded_reply oracle text rl =
        guardLoop oracle (pyStrip text)
          (extract_keywords_from_texts [pyStrip text] 6 1) 0 1 none := by
      unfold generate_guarded_reply
      rw [hone]
    rw [hgen]
    exact ⟨hc, by rw [h.1]; exact hc⟩
  · have h := guardLoop_spec oracle (pyStrip text)
      (extract_keywords_from_texts [pyStrip text] 6 1) (maxAttempts rl) 0 none
    have hge := h.2.2.2.1 hma
    have h1 := h.1
    show 1 ≤ (guardLoop oracle (pyStrip text)
      (extract_keywords_from_texts [pyStrip text] 6 1) 0 (maxAttempts rl) none).metadata.attempts
    omega

/-- C10 witness: the theorem instantiated at `retry_limit = 0` with an
always-failing oracle, discharging the hypothesis there. -/
theorem C10_at_least_one_attempt_witness :
    ((0 : Int) ≤ 0) ∧
    (generate_guarded_reply (fun _ => .failure none) "some tweet" 0).calls = 1 ∧
    (generate_guarded_reply (fun _ => .failure none) "some tweet" 0).metadata.attempts = 1 :=
  ⟨by decide,
   ((C10_at_least_one_attempt (fun _ => .failure none) "some tweet" 0).1 (by decide)).1,
   ((C10_at_least_one_attempt (fun _ => .failure none) "some tweet" 0).1 (by decide)).2⟩

/-! ## Claim C6: backend router fallback -/

/-- C6: a raising backend never propagates — the router's result is exactly
the result of trying the remaining backends — and the router returns `None`
iff no backend in the attempt order produced a text, i.e. only after every
configured, available backend has been tried and failed (skipped backends
cannot produce). -/
theorem C6_router_fallback (invoke : String → BackendOutcome) (order : List String)
    (pref : Option String) :
    (∀ svc rest, invoke svc = .raised →
      route_generate invoke (svc :: rest) = route_generate invoke rest) ∧
    (generate_text invoke order pref = none ↔
      ∀ svc ∈ services_to_try order pref, ∀ t, invoke svc ≠ .produced t) := by
  constructor
  · intro svc rest h
    simp [route_generate, h]
  · unfold generate_text
    induction services_to_try order pref with
    | nil => simp [route_generate]
    | cons svc rest ih =>
      cases h : invoke svc with
      | produced t =>
        have hstep : route_generate invoke (svc :: rest) = some t := by
          simp [route_generate, h]
        rw [hstep]
        constructor
        · intro h'
          exact absurd h' (by simp)
        · intro hall
          exact absurd h (hall svc (List.mem_cons_self _ _) t)
      | skipped =>
        have hstep : route_generate invoke (svc :: rest) = route_generate invoke rest := by
          simp [route_generate, h]
        rw [hstep, ih]
        constructor
        · intro hall x hx t
          rcases List.mem_cons.mp hx with hx | hx
          · subst hx
            intro heq
            rw [h] at heq
            cases heq
          · exact hall x hx t
        · intro hall x hx t
          exact hall x (List.mem_cons_of_mem _ hx) t
      | raised =>
        have hstep : route_generate invoke (svc :: rest) = route_generate invoke rest := by
          simp [route_generate, h]
        rw [hstep, ih]
        constructor
        · intro hall x hx t
          rcases List.mem_cons.mp hx with hx | hx
          · subst hx
            intro heq
            rw [h] at heq
            cases heq
          · exact hall x hx t
        · intro hall x hx t
          exact hall x (List.mem_cons_of_mem _ hx) t

/-- Concrete backend behaviour for the C6 witness: Azure raises, OpenAI
produces, Gemini's client is missing. -/
def demoInvoke : String → BackendOutcome :=
  fun svc =>
    if svc = "azure" then .raised
    else if svc = "openai" then .produced "hello" else .skipped

/-- C6 witness: the exception-skip clause applied at a concrete raising
backend. -/
theorem C6_router_fallback_witness :
    route_generate demoInvoke ("azure" :: ["openai", "gemini"]) =
      route_generate demoInvoke ["openai", "gemini"] :=
  (C6_router_fallback demoInvoke ["azure", "openai", "gemini"] none).1
    "azure" ["openai", "gemini"] (by decide)

/-! ## Claim C7: decision-engine fallback ordering -/

/-- C7: with decision logic enabled and no structured recommendation, the
engine returns the manual threshold fallback, which picks `quote_tweet` when
relevance meets the quote threshold with favorable (positive/neutral)
sentiment, else `retweet` when it meets the retweet threshold with favorable
sentiment, else `repost` on the repost threshold regardless of sentiment,
else `like` — so unfavorable sentiment never disqualifies repost or like. -/
theorem C7_fallback_ordering (default_interaction : String) (q r p rel : ℚ) (sent : String) :
    decide_competitor_action true default_interaction none rel sent q r p =
      decide_fallback q r p rel sent ∧
    (q ≤ rel ∧ favorable sent = true → decide_fallback q r p rel sent = "quote_tweet") ∧
    (¬ (q ≤ rel) ∧ r ≤ rel ∧ favorable sent = true →
      decide_fallback q r p rel sent = "retweet") ∧
    (¬ (q ≤ rel ∧ favorable sent = true) ∧ ¬ (r ≤ rel ∧ favorable sent = true) ∧ p ≤ rel →
      decide_fallback q r p rel sent = "repost") ∧
    (¬ (q ≤ rel ∧ favorable sent = true) ∧ ¬ (r ≤ rel ∧ favorable sent = true) ∧ ¬ (p ≤ rel) →
      decide_fallback q r p rel sent = "like") ∧
    (favorable sent = false → p ≤ rel → decide_fallback q r p rel sent = "repost") ∧
    (favorable sent = false → ¬ (p ≤ rel) → decide_fallback q r p rel sent = "like") := by
  refine ⟨by simp [decide_competitor_action], ?_, ?_, ?_, ?_, ?_, ?_⟩
  · rintro ⟨hq, hf⟩
    simp [decide_fallback, hq, hf]
  · rintro ⟨hq, hr, hf⟩
    simp [decide_fallback, hq, hr, hf]
  · rintro ⟨h1, h2, hp⟩
    by_cases hf : favorable sent = true
    · have hq : ¬ (q ≤ rel) := fun hq => h1 ⟨hq, hf⟩
      have hr : ¬ (r ≤ rel) := fun hr => h2 ⟨hr, hf⟩
      simp [decide_fallback, hq, hr, hp]
    · have hf' : favorable sent = false := by
        simpa using hf
      simp [decide_fallback, hf', hp]
  · rintro ⟨h1, h2, hp⟩
    by_cases hf : favorable sent = true
    · have hq : ¬ (q ≤ rel) := fun hq => h1 ⟨hq, hf⟩
      have hr : ¬ (r ≤ rel) := fun hr => h2 ⟨hr, hf⟩
      simp [decide_fallback, hq, hr, hp]
    · have hf' : favorable sent = false := by
        simpa using hf
      simp [decide_fallback, hf', hp]
  · intro hf hp
    simp [decide_fallback, hf, hp]
  · intro hf hp
    simp [decide_fallback, hf, hp]

/-- C7 witness: default thresholds (0.75 / 0.5 / 0.35), relevance 0.4 and
negative sentiment select `repost` — negative sentiment did not disqualify
it. -/
theorem C7_fallback_ordering_witness :
    decide_competitor_action true "repost" none (2/5) "negative" (3/4) (1/2) (7/20) =
      "repost" := by
  have h := C7_fallback_ordering "repost" (3/4) (1/2) (7/20) (2/5) "negative"
  rw [h.1]
  exact h.2.2.2.2.2.1 (by decide) (by norm_num)

/-! ## Claim C3: off-topic term licensing -/

theorem startsWithSeq_append_right (l t : List Char) : startsWithSeq l (l ++ t) = true := by
  induction l with
  | nil => rfl
  | cons c cs ih => simp [startsWithSeq, ih]

theorem containsSeq_of_startsWithSeq {pat text : List Char}
    (h : startsWithSeq pat text = true) : containsSeq pat text = true := by
  cases text with
  | nil =>
    cases pat with
    | nil => rfl
    | cons p ps => simp [startsWithSeq] at h
  | cons c cs => simp [containsSeq, h]

theorem containsSeq_cons {pat text : List Char} (c : Char)
    (h : containsSeq pat text = true) : containsSeq pat (c :: text) = true := by
  simp [containsSeq, h]

theorem containsSeq_append_left {pat text : List Char} (l : List Char)
    (h : containsSeq pat text = true) : containsSeq pat (l ++ text) = true := by
  induction l with
  | nil => exact h
  | cons c cs ih => exact containsSeq_cons c ih

theorem startsWithSeq_map (f : Char → Char) :
    ∀ {pat text : List Char}, startsWithSeq pat text = true →
      startsWithSeq (pat.map f) (text.map f) = true := by
  intro pat
  induction pat with
  | nil => intro text _; rfl
  | cons p ps ih =>
    intro text h
    cases text with
    | nil => simp [startsWithSeq] at h
    | cons c cs =>
      simp only [startsWithSeq, Bool.and_eq_true, decide_eq_true_eq] at h
      obtain ⟨hpc, hrest⟩ := h
      simp only [List.map_cons, startsWithSeq, Bool.and_eq_true, decide_eq_true_eq]
      exact ⟨by rw [hpc], ih hrest⟩

theorem containsSeq_map (f : Char → Char) :
    ∀ {text pat : List Char}, containsSeq pat text = true →
      containsSeq (pat.map f) (text.map f) = true := by
  intro text
  induction text with
  | nil =>
    intro pat h
    cases pat with
    | nil => rfl
    | cons p ps => simp [containsSeq, startsWithSeq] at h
  | cons c cs ih =>
    intro pat h
    simp only [containsSeq, Bool.or_eq_true] at h
    rcases h with h | h
    · have := startsWithSeq_map f h
      simp only [List.map_cons] at this ⊢
      simp [containsSeq, this]
    · have := ih h
      simp only [List.map_cons]
      exact containsSeq_cons _ this

/-- Every run emitted by the splitter is a contiguous substring of the
already-consumed prefix (`acc.reverse`) followed by the remaining input. -/
theorem mem_splitRunsAux_contains (p : Char → Bool) :
    ∀ (cs acc : List Char) (r : List Char), r ∈ splitRunsAux p cs acc →
      containsSeq r (acc.reverse ++ cs) = true := by
  intro cs
  induction cs with
  | nil =>
    intro acc r hr
    by_cases hacc : acc = []
    · simp [splitRunsAux, hacc] at hr
    · simp only [splitRunsAux, hacc, if_false, List.mem_singleton] at hr
      subst hr
      rw [List.append_nil]
      exact containsSeq_of_startsWithSeq
        (by simpa using startsWithSeq_append_right acc.reverse [])
  | cons c cs ih =>
    intro acc r hr
    simp only [splitRunsAux] at hr
    by_cases hpc : p c = true
    · rw [if_pos hpc] at hr
      have := ih (c :: acc) r hr
      simpa [List.append_assoc] using this
    · rw [if_neg hpc] at hr
      by_cases hacc : acc = []
      · rw [if_pos hacc] at hr
        have := ih [] r hr
        simp only [List.reverse_nil, List.nil_append] at this
        simp only [hacc, List.reverse_nil, List.nil_append]
        exact containsSeq_cons c this
      · rw [if_neg hacc] at hr
        rcases List.mem_cons.mp hr with hr | hr
        · subst hr
          exact containsSeq_of_startsWithSeq (startsWithSeq_append_right _ _)
        · have := ih [] r hr
          simp only [List.reverse_nil, List.nil_append] at this
          exact containsSeq_append_left _ (containsSeq_cons c this)

/-- A normalized token of `text` occurs as a substring of the lowercased
text. -/
theorem mem_py_tokenize_strContains {t : String} {text : String}
    (h : t ∈ py_tokenize text) : strContains t (pyLower text) = true := by
  simp only [py_tokenize, List.mem_map] at h
  obtain ⟨run, hrun, ht⟩ := h
  have hcont : containsSeq run text.toList = true := by
    have := mem_splitRunsAux_contains isTokenChar text.toList [] run hrun
    simpa using this
  have hmap := containsSeq_map Char.toLower hcont
  subst ht
  exact hmap

/-- An overlap token of `text` occurs as a substring of the lowercased text. -/
theorem mem_tokenize_for_overlap_strContains {t : String} {text : String}
    (h : t ∈ tokenize_for_overlap text) : strContains t (pyLower text) = true :=
  mem_py_tokenize_strContains (List.mem_of_mem_filter h)

/-- C3, counterexample: the default off-topic term `"pull request"` is present
verbatim in the tweet text, yet a reply echoing it is still flagged and the
guarded pipeline rejects the reply — refuting "a term present verbatim in the
tweet text never causes the reply to be rejected for that term". -/
theorem C3_counterexample :
    strContains "pull request" "please review my pull request" = true ∧
    "pull request" ∈ find_off_topic_terms "your pull request looks good"
      "please review my pull request"
      (extract_keywords_from_texts ["please review my pull request"] 6 1) ∧
    (generate_guarded_reply
      (fun _ => .structured (some "your pull request looks good") true (some "on topic") [])
      "please review my pull request" 2).reply = none := by
  exact ⟨by decide, by decide, by decide⟩

/-- C3, amended: a default-list term is never flagged when it is one of the
tweet's normalized tokens (lowercased maximal alphanumeric runs longer than
two characters, stopwords excluded) or matches one of the allowed keywords
case-insensitively; and a term that occurs in the lowercased reply while
absent as a substring of the lowercased tweet text and absent from the
lowercased allowed keywords is always flagged.  (Terms that are present in
the tweet only as multi-word phrases or as fragments of longer words are not
licensed, because licensing is token-based.) -/
theorem C3_token_licensing (reply tweet : String) (allowed : List String) (term : String) :
    (term ∈ tokenize_for_overlap tweet →
      term ∉ find_off_topic_terms reply tweet allowed) ∧
    (term ∈ allowed.map pyLower →
      term ∉ find_off_topic_terms reply tweet allowed) ∧
    (term ∈ DEFAULT_OFF_TOPIC_TERMS → strContains term (pyLower reply) = true →
      strContains term (pyLower tweet) = false → term ∉ allowed.map pyLower →
      term ∈ find_off_topic_terms reply tweet allowed) := by
  refine ⟨?_, ?_, ?_⟩
  · intro htok hmem
    simp only [find_off_topic_terms, List.mem_filter, Bool.and_eq_true, Bool.not_eq_true',
      List.contains_eq_any_beq, List.any_eq_false, beq_iff_eq, List.mem_append] at hmem
    exact hmem.2.2 term (Or.inr htok) rfl
  · intro hallow hmem
    simp only [find_off_topic_terms, List.mem_filter, Bool.and_eq_true, Bool.not_eq_true',
      List.contains_eq_any_beq, List.any_eq_false, beq_iff_eq, List.mem_append] at hmem
    exact hmem.2.2 term (Or.inl hallow) rfl
  · intro hdef hreply htweet hallow
    simp only [find_off_topic_terms, List.mem_filter, Bool.and_eq_true, Bool.not_eq_true',
      List.contains_eq_any_beq, List.any_eq_false, beq_iff_eq, List.mem_append]
    refine ⟨hdef, hreply, ?_⟩
    rintro x (h | h) hx
    · exact hallow (hx ▸ h)
    · rw [mem_tokenize_for_overlap_strContains (hx ▸ h)] at htweet
      cases htweet

/-- C3 witness: concrete instances of all three clauses — `"repo"` as a tweet
token is not flagged; a keyword match is not flagged; `"openai"`, absent from
the tweet, is flagged. -/
theorem C3_token_licensing_witness :
    ("repo" ∉ find_off_topic_terms "nice repo work" "check my repo now" []) ∧
    ("claude" ∉ find_off_topic_terms "claude is great" "unrelated words here" ["Claude"]) ∧
    ("openai" ∈ find_off_topic_terms "read the OpenAI docs" "distributed training talk" []) :=
  ⟨(C3_token_licensing "nice repo work" "check my repo now" [] "repo").1 (by decide),
   (C3_token_licensing "claude is great" "unrelated words here" ["Claude"] "claude").2.1
     (by decide),
   (C3_token_licensing "read the OpenAI docs" "distributed training talk" [] "openai").2.2
     (by decide) (by decide) (by decide) (by decide)⟩

/-! ## Stable-sort lemmas (claims C8, C9) -/

theorem stableInsert_perm (le : α → α → Bool) (x : α) :
    ∀ l : List α, (stableInsert le x l).Perm (x :: l)
  | [] => List.Perm.refl _
  | y :: ys => by
    rw [stableInsert]
    by_cases h : le y x = true
    · rw [if_pos h]
      exact ((stableInsert_perm le x ys).cons y).trans (List.Perm.swap x y ys)
    · rw [if_neg h]

theorem pySorted_perm (le : α → α → Bool) (l : List α) : (pySorted le l).Perm l := by
  have haux : ∀ (l acc : List α),
      (l.foldl (fun acc x => stableInsert le x acc) acc).Perm (acc ++ l) := by
    intro l
    induction l with
    | nil => intro acc; simp
    | cons x xs ih =>
      intro acc
      have h1 := ih (stableInsert le x acc)
      have h2 : (stableInsert le x acc ++ xs).Perm ((x :: acc) ++ xs) :=
        (stableInsert_perm le x acc).append_right xs
      have h3 : ((x :: acc) ++ xs).Perm (acc ++ x :: xs) := List.perm_middle.symm
      exact (h1.trans h2).trans h3
  simpa using haux l []

theorem mem_stableInsert (le : α → α → Bool) (x a : α) (l : List α) :
    a ∈ stableInsert le x l ↔ a = x ∨ a ∈ l := by
  rw [(stableInsert_perm le x l).mem_iff]
  simp

theorem stableInsert_pairwise (le : α → α → Bool)
    (htrans : ∀ a b c, le a b = true → le b c = true → le a c = true)
    (htot : ∀ a b, le a b = true ∨ le b a = true) (x : α) :
    ∀ l : List α, l.Pairwise (fun a b => le a b = true) →
      (stableInsert le x l).Pairwise (fun a b => le a b = true)
  | [], _ => by simp [stableInsert]
  | y :: ys, hl => by
    rw [stableInsert]
    obtain ⟨hy, hys⟩ := List.pairwise_cons.mp hl
    by_cases h : le y x = true
    · rw [if_pos h]
      refine List.pairwise_cons.mpr ⟨?_, stableInsert_pairwise le htrans htot x ys hys⟩
      intro z hz
      rcases (mem_stableInsert le x z ys).mp hz with hz | hz
      · subst hz; exact h
      · exact hy z hz
    · rw [if_neg h]
      have hxy : le x y = true := (htot x y).resolve_right (fun hyx => h hyx)
      refine List.pairwise_cons.mpr ⟨?_, hl⟩
      intro z hz
      rcases List.mem_cons.mp hz with hz | hz
      · subst hz; exact hxy
      · rcases htot x z with hxz | hzx
        · exact hxz
        · exact absurd (htrans y z x (hy z hz) hzx) h

theorem pySorted_pairwise (le : α → α → Bool)
    (htrans : ∀ a b c, le a b = true → le b c = true → le a c = true)
    (htot : ∀ a b, le a b = true ∨ le b a = true) (l : List α) :
    (pySorted le l).Pairwise (fun a b => le a b = true) := by
  have haux : ∀ (l acc : List α), acc.Pairwise (fun a b => le a b = true) →
      (l.foldl (fun acc x => stableInsert le x acc) acc).Pairwise
        (fun a b => le a b = true) := by
    intro l
    induction l with
    | nil => intro acc h; exact h
    | cons x xs ih =>
      intro acc h
      exact ih _ (stableInsert_pairwise le htrans htot x acc h)
  exact haux l [] List.Pairwise.nil

/-! ## String-order lemmas (claim C8) -/

theorem char_toNat_inj {a b : Char} (h : a.toNat = b.toNat) : a = b :=
  Char.ext (UInt32.ext h)

theorem strLtB_trans : ∀ a b c : List Char,
    strLtB a b = true → strLtB b c = true → strLtB a c = true
  | [], b, c => by
    intro hab hbc
    cases b with
    | nil => simp [strLtB] at hab
    | cons y ys =>
      cases c with
      | nil => simp [strLtB] at hbc
      | cons z zs => simp [strLtB]
  | x :: xs, b, c => by
    intro hab hbc
    cases b with
    | nil => simp [strLtB] at hab
    | cons y ys =>
      cases c with
      | nil => simp [strLtB] at hbc
      | cons z zs =>
        simp only [strLtB, Bool.or_eq_true, Bool.and_eq_true, decide_eq_true_eq] at hab hbc ⊢
        rcases hab with hab | ⟨hab1, hab2⟩
        · rcases hbc with hbc | ⟨hbc1, hbc2⟩
          · exact Or.inl (Nat.lt_trans hab hbc)
          · subst hbc1; exact Or.inl hab
        · subst hab1
          rcases hbc with hbc | ⟨hbc1, hbc2⟩
          · exact Or.inl hbc
          · subst hbc1
            exact Or.inr ⟨rfl, strLtB_trans _ _ _ hab2 hbc2⟩

theorem strLtB_trichotomy : ∀ a b : List Char,
    strLtB a b = true ∨ strLtB b a = true ∨ a = b
  | [], [] => Or.inr (Or.inr rfl)
  | [], _ :: _ => Or.inl rfl
  | _ :: _, [] => Or.inr (Or.inl rfl)
  | x :: xs, y :: ys => by
    rcases Nat.lt_trichotomy x.toNat y.toNat with h | h | h
    · exact Or.inl (by simp [strLtB, h])
    · have hxy : x = y := char_toNat_inj h
      subst hxy
      rcases strLtB_trichotomy xs ys with h2 | h2 | h2
      · exact Or.inl (by simp [strLtB, h2])
      · exact Or.inr (Or.inl (by simp [strLtB, h2]))
      · exact Or.inr (Or.inr (by rw [h2]))
    · exact Or.inr (Or.inl (by simp [strLtB, h]))

theorem string_toList_inj {a b : String} (h : a.toList = b.toList) : a = b :=
  String.ext h

theorem keywordSortLE_total (cnt : String → Nat) (a b : String) :
    keywordSortLE cnt a b = true ∨ keywordSortLE cnt b a = true := by
  unfold keywordSortLE
  by_cases h1 : cnt a = cnt b
  · rw [if_neg (not_not_intro h1), if_neg (not_not_intro h1.symm)]
    by_cases h2 : a.length = b.length
    · rw [if_neg (not_not_intro h2), if_neg (not_not_intro h2.symm)]
      rcases strLtB_trichotomy a.toList b.toList with h3 | h3 | h3
      · right
        have h3' : strLtB a.data b.data = true := h3
        simp [h3']
      · left
        have h3' : strLtB b.data a.data = true := h3
        simp [h3']
      · left
        have hab : a = b := string_toList_inj h3
        simp [hab]
    · rw [if_pos h2, if_pos (fun h => h2 h.symm)]
      simp only [decide_eq_true_eq]
      omega
  · rw [if_pos h1, if_pos (fun h => h1 h.symm)]
    simp only [decide_eq_true_eq]
    omega

theorem keywordSortLE_trans (cnt : String → Nat) (a b c : String)
    (hab : keywordSortLE cnt a b = true) (hbc : keywordSortLE cnt b c = true) :
    keywordSortLE cnt a c = true := by
  unfold keywordSortLE at hab hbc ⊢
  by_cases h1 : cnt a = cnt b <;> by_cases h2 : cnt b = cnt c
  · rw [if_neg (not_not_intro h1)] at hab
    rw [if_neg (not_not_intro h2)] at hbc
    rw [if_neg (not_not_intro (h1.trans h2))]
    by_cases h3 : a.length = b.length <;> by_cases h4 : b.length = c.length
    · rw [if_neg (not_not_intro h3)] at hab
      rw [if_neg (not_not_intro h4)] at hbc
      rw [if_neg (not_not_intro (h3.trans h4))]
      simp only [Bool.or_eq_true, decide_eq_true_eq] at hab hbc ⊢
      rcases hab with hab | hab
      · rcases hbc with hbc | hbc
        · exact Or.inl (strLtB_trans _ _ _ hbc hab)
        · subst hbc
          exact Or.inl hab
      · subst hab
        exact hbc
    · rw [if_neg (not_not_intro h3)] at hab
      rw [if_pos h4] at hbc
      simp only [decide_eq_true_eq] at hbc
      rw [if_pos (show a.length ≠ c.length by omega)]
      simp only [decide_eq_true_eq]
      omega
    · rw [if_pos h3] at hab
      rw [if_neg (not_not_intro h4)] at hbc
      simp only [decide_eq_true_eq] at hab
      rw [if_pos (show a.length ≠ c.length by omega)]
      simp only [decide_eq_true_eq]
      omega
    · rw [if_pos h3] at hab
      rw [if_pos h4] at hbc
      simp only [decide_eq_true_eq] at hab hbc
      rw [if_pos (show a.length ≠ c.length by omega)]
      simp only [decide_eq_true_eq]
      omega
  · rw [if_pos h2] at hbc
    simp only [decide_eq_true_eq] at hbc
    rw [if_pos (show cnt a ≠ cnt c by omega)]
    simp only [decide_eq_true_eq]
    omega
  · rw [if_pos h1] at hab
    simp only [decide_eq_true_eq] at hab
    rw [if_pos (show cnt a ≠ cnt c by omega)]
    simp only [decide_eq_true_eq]
    omega
  · rw [if_pos h1] at hab
    rw [if_pos h2] at hbc
    simp only [decide_eq_true_eq] at hab hbc
    rw [if_pos (show cnt a ≠ cnt c by omega)]
    simp only [decide_eq_true_eq]
    omega

/-! ## Counter lemmas (claim C8) -/

theorem countOf_nil (t : String) : countOf [] t = 0 := rfl

theorem countOf_cons (k : String) (v : Nat) (l : List (String × Nat)) (t : String) :
    countOf ((k, v) :: l) t = if t = k then v else countOf l t := by
  by_cases h : t = k
  · simp [countOf, List.lookup, beq_iff_eq, h]
  · have hbeq : (t == k) = false := by
      simp [h]
    simp [countOf, List.lookup, hbeq, h]

theorem countOf_bumpCount (u t : String) :
    ∀ l : List (String × Nat),
      countOf (bumpCount l u) t = countOf l t + (if u = t then 1 else 0)
  | [] => by
    by_cases h : t = u
    · subst h
      simp [bumpCount, countOf_cons, countOf_nil]
    · simp [bumpCount, countOf_cons, countOf_nil, h, Ne.symm h]
  | (s, n) :: rest => by
    rw [bumpCount]
    by_cases hsu : s = u
    · subst hsu
      rw [if_pos rfl]
      by_cases hts : t = s
      · subst hts
        simp [countOf_cons]
      · simp [countOf_cons, hts, Ne.symm hts]
    · rw [if_neg hsu]
      by_cases hts : t = s
      · subst hts
        simp [countOf_cons, Ne.symm hsu]
      · simp [countOf_cons, hts, countOf_bumpCount u t rest]

theorem countOf_foldl (t : String) :
    ∀ (stream : List String) (acc : List (String × Nat)),
      countOf (stream.foldl bumpCount acc) t = countOf acc t + stream.count t
  | [], acc => by simp
  | u :: rest, acc => by
    rw [List.foldl_cons, countOf_foldl t rest (bumpCount acc u), countOf_bumpCount u t acc]
    by_cases h : u = t
    · subst h
      simp [List.count_cons]
      omega
    · simp [List.count_cons, h, Ne.symm h]

theorem countOf_tallyTokens (texts : List String) (t : String) :
    countOf (tallyTokens texts) t = (tokenStream texts).count t := by
  rw [tallyTokens, countOf_foldl, countOf_nil]
  omega

theorem bumpCount_keys (u : String) :
    ∀ l : List (String × Nat),
      (bumpCount l u).map Prod.fst =
        if u ∈ l.map Prod.fst then l.map Prod.fst else l.map Prod.fst ++ [u]
  | [] => by simp [bumpCount]
  | (s, n) :: rest => by
    rw [bumpCount]
    by_cases h : s = u
    · subst h
      simp
    · rw [if_neg h]
      have hus : ¬ (u = s) := fun hh => h hh.symm
      by_cases hm : u ∈ rest.map Prod.fst
      · simp [bumpCount_keys u rest, hm, hus]
      · simp [bumpCount_keys u rest, hm, hus]

theorem mem_foldl_bump_keys (t : String) :
    ∀ (stream : List String) (acc : List (String × Nat)),
      t ∈ (stream.foldl bumpCount acc).map Prod.fst ↔
        t ∈ acc.map Prod.fst ∨ t ∈ stream
  | [], acc => by simp
  | u :: rest, acc => by
    rw [List.foldl_cons, mem_foldl_bump_keys t rest (bumpCount acc u), bumpCount_keys u acc]
    by_cases hm : u ∈ acc.map Prod.fst
    · rw [if_pos hm]
      simp only [List.mem_cons]
      constructor
      · rintro (h | h)
        · exact Or.inl h
        · exact Or.inr (Or.inr h)
      · rintro (h | h | h)
        · exact Or.inl h
        · exact Or.inl (h ▸ hm)
        · exact Or.inr h
    · rw [if_neg hm]
      simp only [List.mem_append, List.mem_singleton, List.mem_cons]
      tauto

theorem nodup_foldl_bump_keys :
    ∀ (stream : List String) (acc : List (String × Nat)),
      (acc.map Prod.fst).Nodup → ((stream.foldl bumpCount acc).map Prod.fst).Nodup
  | [], _ => fun h => h
  | u :: rest, acc => fun h => by
    rw [List.foldl_cons]
    apply nodup_foldl_bump_keys rest
    rw [bumpCount_keys u acc]
    by_cases hm : u ∈ acc.map Prod.fst
    · rw [if_pos hm]
      exact h
    · rw [if_neg hm]
      rw [List.nodup_append]
      exact ⟨h, List.nodup_singleton u, by
        intro x hx hxu
        rw [List.mem_singleton] at hxu
        exact hm (hxu ▸ hx)⟩

theorem nodup_tallyTokens_keys (texts : List String) :
    ((tallyTokens texts).map Prod.fst).Nodup :=
  nodup_foldl_bump_keys (tokenStream texts) [] (by simp)

theorem mem_tallyTokens_keys (texts : List String) (t : String) :
    t ∈ (tallyTokens texts).map Prod.fst ↔ t ∈ tokenStream texts := by
  rw [tallyTokens, mem_foldl_bump_keys]
  simp

theorem keywordPool_sub (tally : List (String × Nat)) (minF : Nat) :
    ∀ t ∈ keywordPool tally minF, t ∈ tally.map Prod.fst := by
  intro t ht
  rw [keywordPool] at ht
  split_ifs at ht with h
  · exact ht
  · obtain ⟨p, hp, hpt⟩ := List.mem_map.mp ht
    exact List.mem_map.mpr ⟨p, List.mem_of_mem_filter hp, hpt⟩

theorem keywordPool_nodup (tally : List (String × Nat)) (minF : Nat)
    (h : (tally.map Prod.fst).Nodup) : (keywordPool tally minF).Nodup := by
  rw [keywordPool]
  split_ifs with hf
  · exact h
  · exact ((List.filter_sublist tally).map Prod.fst).nodup h

/-- On a tally with distinct keys, the recorded count of a member pair's key
is that pair's count. -/
theorem countOf_of_mem_nodup :
    ∀ (tally : List (String × Nat)), ((tally.map Prod.fst).Nodup) →
      ∀ p ∈ tally, countOf tally p.1 = p.2
  | [], _, p, hp => by cases hp
  | (k, v) :: rest, hnd, p, hp => by
    simp only [List.map_cons] at hnd
    obtain ⟨hknotin, hndrest⟩ := List.nodup_cons.mp hnd
    rcases List.mem_cons.mp hp with hp | hp
    · subst hp
      simp [countOf_cons]
    · have hk : p.1 ≠ k := by
        intro he
        exact hknotin (he ▸ List.mem_map.mpr ⟨p, hp, rfl⟩)

      rw [countOf_cons, if_neg hk]
      exact countOf_of_mem_nodup rest hndrest p hp

/-- An empty tally means no token was ever counted. -/
theorem tokenStream_eq_nil_of_tally (texts : List String)
    (h : tallyTokens texts = []) : tokenStream texts = [] := by
  by_contra hne
  obtain ⟨u, hu⟩ := List.exists_mem_of_ne_nil _ hne
  have hkeys := (mem_tallyTokens_keys texts u).mpr hu
  rw [h] at hkeys
  simp at hkeys


/-! ## Claim C8: keyword extraction ranking -/

/-- Frequency of a token across the counted token stream of `texts`. -/
def tokenFreq (texts : List String) (t : String) : Nat := (tokenStream texts).count t

/-- The ranking the code actually produces for two distinct extracted
keywords: greater frequency first; on equal frequency the shorter token
first; on equal frequency and length the code-point-larger token first. -/
def rankedBefore (texts : List String) (a b : String) : Prop :=
  tokenFreq texts b < tokenFreq texts a ∨
    (tokenFreq texts a = tokenFreq texts b ∧
      (a.length < b.length ∨ (a.length = b.length ∧ strLtB b.toList a.toList = true)))

/-- The candidate pool handed to the sort is exactly the distinct counted
tokens meeting `min_frequency`, or every distinct counted token when none
meets it (text_utils.py lines 147-149). -/
theorem mem_keywordPool_tally_iff (texts : List String) (minF : Nat) (t : String) :
    t ∈ keywordPool (tallyTokens texts) minF ↔
      t ∈ tokenStream texts ∧ (minF ≤ tokenFreq texts t ∨
        ∀ u ∈ tokenStream texts, tokenFreq texts u < minF) := by
  have hfreq : ∀ p ∈ tallyTokens texts, tokenFreq texts p.1 = p.2 := by
    intro p hp
    have h1 := countOf_of_mem_nodup _ (nodup_tallyTokens_keys texts) p hp
    rw [← h1, tokenFreq, ← countOf_tallyTokens]
  rw [keywordPool]
  by_cases hf : (((tallyTokens texts).filter (fun p => decide (minF ≤ p.2))).map Prod.fst) = []
  · rw [if_pos hf]
    have hall : ∀ u ∈ tokenStream texts, tokenFreq texts u < minF := by
      intro u hu
      obtain ⟨p, hp, hpu⟩ := List.mem_map.mp ((mem_tallyTokens_keys texts u).mpr hu)
      by_contra hge
      push_neg at hge
      have hp2 : minF ≤ p.2 := by
        rw [← hfreq p hp, hpu]
        exact hge
      have hmem : p.1 ∈ (((tallyTokens texts).filter
          (fun q => decide (minF ≤ q.2))).map Prod.fst) :=
        List.mem_map.mpr ⟨p, List.mem_filter.mpr ⟨hp, by simpa using hp2⟩, rfl⟩
      rw [hf] at hmem
      cases hmem
    constructor
    · intro h
      exact ⟨(mem_tallyTokens_keys texts t).mp h, Or.inr hall⟩
    · intro h
      exact (mem_tallyTokens_keys texts t).mpr h.1
  · rw [if_neg hf]
    constructor
    · intro h
      obtain ⟨p, hpf, hpt⟩ := List.mem_map.mp h
      obtain ⟨hp, hpmin⟩ := List.mem_filter.mp hpf
      refine ⟨(mem_tallyTokens_keys texts t).mp (hpt ▸ List.mem_map.mpr ⟨p, hp, rfl⟩),
        Or.inl ?_⟩
      rw [← hpt, hfreq p hp]
      simpa using hpmin
    · rintro ⟨hst, hge | hall⟩
      · obtain ⟨p, hp, hpt⟩ := List.mem_map.mp ((mem_tallyTokens_keys texts t).mpr hst)
        have hp2 : minF ≤ p.2 := by
          rw [← hfreq p hp, hpt]
          exact hge
        exact List.mem_map.mpr ⟨p, List.mem_filter.mpr ⟨hp, by simpa using hp2⟩, hpt⟩
      · exfalso
        obtain ⟨w, hw⟩ := List.exists_mem_of_ne_nil _ hf
        obtain ⟨p, hpf, hpw⟩ := List.mem_map.mp hw
        obtain ⟨hp, hpmin⟩ := List.mem_filter.mp hpf
        have hwstream : p.1 ∈ tokenStream texts :=
          (mem_tallyTokens_keys texts p.1).mp (List.mem_map.mpr ⟨p, hp, rfl⟩)
        have hlt := hall p.1 hwstream
        rw [hfreq p hp] at hlt
        have h2 : minF ≤ p.2 := by simpa using hpmin
        omega

theorem keywordSortLE_strict (cnt : String → Nat) (a b : String)
    (hle : keywordSortLE cnt a b = true) (hne : a ≠ b) :
    cnt b < cnt a ∨ (cnt a = cnt b ∧
      (a.length < b.length ∨ (a.length = b.length ∧ strLtB b.toList a.toList = true))) := by
  unfold keywordSortLE at hle
  by_cases h1 : cnt a = cnt b
  · rw [if_neg (not_not_intro h1)] at hle
    by_cases h2 : a.length = b.length
    · rw [if_neg (not_not_intro h2)] at hle
      simp only [Bool.or_eq_true, decide_eq_true_eq] at hle
      rcases hle with h | h
      · exact Or.inr ⟨h1, Or.inr ⟨h2, h⟩⟩
      · exact absurd h hne
    · rw [if_pos h2] at hle
      simp only [decide_eq_true_eq] at hle
      exact Or.inr ⟨h1, Or.inl hle⟩
  · rw [if_pos h1] at hle
    simp only [decide_eq_true_eq] at hle
    exact Or.inl hle

/-- C8, counterexample: with input `["cat elephant"]` both tokens have
frequency 1, and the code emits `["cat", "elephant"]` — the shorter token
first — while the spec's ordering (longer token first, then lexicographic)
would emit `["elephant", "cat"]`. -/
theorem C8_counterexample :
    extract_keywords_from_texts ["cat elephant"] 8 1 = ["cat", "elephant"] ∧
    keywords_spec_order ["cat elephant"] 8 1 = ["elephant", "cat"] ∧
    extract_keywords_from_texts ["cat elephant"] 8 1 ≠
      keywords_spec_order ["cat elephant"] 8 1 := by
  exact ⟨by decide, by decide, by decide⟩

/-- C8, amended: keyword extraction returns exactly the
`min(max_keywords, number-of-candidates)` best-ranked candidate tokens — the
candidates being the distinct counted tokens (longer than two characters,
not stopwords) meeting `min_frequency`, or all distinct counted tokens when
none does — ranked by frequency descending with ties broken by the *shorter*
token first and then *reverse* lexicographic (code-point) order, not by the
longer token and forward lexicographic order as the spec states.  Stated as:
the output length is `min max_keywords #candidates`; pool membership is
characterised; the output is duplicate-free, contains only valid tokens, is
sorted by the ranking; and every candidate left out ranks strictly after
every token returned. -/
theorem C8_keyword_ranking (texts : List String) (maxK minF : Nat) :
    (extract_keywords_from_texts texts maxK minF).length =
      min maxK (keywordPool (tallyTokens texts) minF).length ∧
    (∀ t, t ∈ keywordPool (tallyTokens texts) minF ↔
      t ∈ tokenStream texts ∧ (minF ≤ tokenFreq texts t ∨
        ∀ u ∈ tokenStream texts, tokenFreq texts u < minF)) ∧
    (extract_keywords_from_texts texts maxK minF).Nodup ∧
    (∀ t ∈ extract_keywords_from_texts texts maxK minF,
      t ∈ texts.flatMap py_tokenize ∧ 2 < t.length ∧ STOPWORDS.contains t = false) ∧
    (extract_keywords_from_texts texts maxK minF).Pairwise (rankedBefore texts) ∧
    (∀ t ∈ extract_keywords_from_texts texts maxK minF,
      ∀ u ∈ keywordPool (tallyTokens texts) minF,
        u ∉ extract_keywords_from_texts texts maxK minF → rankedBefore texts t u) := by
  unfold extract_keywords_from_texts
  by_cases htally : tallyTokens texts = []
  · rw [if_pos htally]
    refine ⟨?_, fun t => mem_keywordPool_tally_iff texts minF t, by simp, by simp, by simp,
      by simp⟩
    rw [htally]
    simp [keywordPool]
  · rw [if_neg htally]
    have hpoolnodup : (keywordPool (tallyTokens texts) minF).Nodup :=
      keywordPool_nodup _ _ (nodup_tallyTokens_keys texts)
    have hsortnodup :
        (pySorted (keywordSortLE (countOf (tallyTokens texts)))
          (keywordPool (tallyTokens texts) minF)).Nodup :=
      (pySorted_perm _ _).nodup_iff.mpr hpoolnodup
    have htakenodup :
        ((pySorted (keywordSortLE (countOf (tallyTokens texts)))
          (keywordPool (tallyTokens texts) minF)).take maxK).Nodup :=
      (List.take_sublist _ _).nodup hsortnodup
    have hpw :
        (pySorted (keywordSortLE (countOf (tallyTokens texts)))
          (keywordPool (tallyTokens texts) minF)).Pairwise
          (fun a b => keywordSortLE (countOf (tallyTokens texts)) a b = true) :=
      pySorted_pairwise _ (keywordSortLE_trans _) (keywordSortLE_total _) _
    have hdecode : ∀ a b : String,
        keywordSortLE (countOf (tallyTokens texts)) a b = true → a ≠ b →
        rankedBefore texts a b := by
      intro a b hle hne
      have hdec := keywordSortLE_strict _ a b hle hne
      rw [rankedBefore]
      simp only [tokenFreq]
      rw [countOf_tallyTokens texts a, countOf_tallyTokens texts b] at hdec
      exact hdec
    refine ⟨?_, fun t => mem_keywordPool_tally_iff texts minF t, htakenodup, ?_, ?_, ?_⟩
    · rw [List.length_take, (pySorted_perm (keywordSortLE (countOf (tallyTokens texts)))
        (keywordPool (tallyTokens texts) minF)).length_eq]
    · intro t ht
      have hmem : t ∈ keywordPool (tallyTokens texts) minF :=
        (pySorted_perm _ _).mem_iff.mp (List.mem_of_mem_take ht)
      have hstream : t ∈ tokenStream texts :=
        (mem_tallyTokens_keys texts t).mp (keywordPool_sub _ _ t hmem)
      rw [tokenStream, List.mem_filter] at hstream
      obtain ⟨hflat, hkept⟩ := hstream
      rw [keptToken, Bool.and_eq_true, decide_eq_true_eq, Bool.not_eq_true'] at hkept
      exact ⟨hflat, hkept.1, hkept.2⟩
    · have hpwtake := hpw.sublist (List.take_sublist maxK _)
      have hnetake : ((pySorted (keywordSortLE (countOf (tallyTokens texts)))
          (keywordPool (tallyTokens texts) minF)).take maxK).Pairwise (· ≠ ·) := htakenodup
      refine (hpwtake.and hnetake).imp ?_
      intro a b hab
      exact hdecode a b hab.1 hab.2
    · intro t ht u hupool hunot
      have hne : t ≠ u := by
        intro he
        exact hunot (he ▸ ht)
      have hu_sorted : u ∈ pySorted (keywordSortLE (countOf (tallyTokens texts)))
          (keywordPool (tallyTokens texts) minF) :=
        (pySorted_perm _ _).mem_iff.mpr hupool
      have hsplit := List.take_append_drop maxK
        (pySorted (keywordSortLE (countOf (tallyTokens texts)))
          (keywordPool (tallyTokens texts) minF))
      have hu_drop : u ∈ (pySorted (keywordSortLE (countOf (tallyTokens texts)))
          (keywordPool (tallyTokens texts) minF)).drop maxK := by
        rw [← hsplit] at hu_sorted
        rcases List.mem_append.mp hu_sorted with h | h
        · exact absurd h hunot
        · exact h
      have hpwsplit := hpw
      rw [← hsplit] at hpwsplit
      have hcross := (List.pairwise_append.mp hpwsplit).2.2 t ht u hu_drop
      exact hdecode t u hcross hne

/-- C8 witness: the dominance and token-validity clauses of the amended
theorem applied at the concrete input `["cat elephant"]` — with a
one-keyword budget the code keeps `"cat"` and drops `"elephant"`, and the
kept token ranks before the dropped one. -/
theorem C8_keyword_ranking_witness :
    rankedBefore ["cat elephant"] "cat" "elephant" ∧
    ("cat" ∈ (["cat elephant"] : List String).flatMap py_tokenize ∧
      2 < ("cat" : String).length ∧ STOPWORDS.contains "cat" = false) :=
  ⟨(C8_keyword_ranking ["cat elephant"] 1 1).2.2.2.2.2 "cat" (by decide) "elephant"
    (by decide) (by decide),
   (C8_keyword_ranking ["cat elephant"] 8 1).2.2.2.1 "cat" (by decide)⟩

/-! ## Claim C9: style context block cap -/

/-- A post whose snippet reaches the 220-character snippet cap; used to drive
the context block over its 800-character cap. -/
def longPost (id : String) : StylePost :=
  { tweet_id := id, user_handle := "h",
    text_content := String.mk (List.replicate 230 'a'),
    created_at := none, embedded_media_urls := [] }

set_option maxRecDepth 4096 in
/-- C9, counterexample: four snippet-capped posts produce an uncapped block
of 989 characters; the code truncates to 800 characters, strips no trailing
whitespace (the 800th character is a letter), and appends the one-character
ellipsis — the returned block has 801 characters, refuting "its final length
is at most 800 characters". -/
theorem C9_counterexample :
    (build_style_context_text (fun _ => "")
      [longPost "1", longPost "2", longPost "3", longPost "4"] [] 5).length = 801 ∧
    ¬ ((build_style_context_text (fun _ => "")
      [longPost "1", longPost "2", longPost "3", longPost "4"] [] 5).length ≤ 800) := by
  exact ⟨by decide, by decide⟩

/-- C9, amended: the style context block is capped at 801 characters: a block
at most 800 characters long is returned unchanged, and a longer one is
truncated to its first 800 characters, right-stripped, and extended with a
one-character ellipsis. -/
theorem capAt800_length_le (s : String) : (capAt800 s).length ≤ 801 := by
  rw [capAt800]
  split_ifs with h
  · rw [String.length_append]
    have h4 : ("…" : String).length = 1 := by decide
    have h5 := le_trans (pyRstrip_length_le (pyTake 800 s)) (pyTake_length_le 800 s)
    omega
  · omega

theorem C9_context_cap (labelOf : Int → String) (tweets : List StylePost)
    (handles : List String) (maxItems : Nat) :
    (build_style_context_text labelOf tweets handles maxItems).length ≤ 801 := by
  unfold build_style_context_text
  split_ifs with h1
  · simp
  · by_cases h2 : dedupById (filter_to_self_posts tweets handles) [] = []
    · rw [if_pos h2]
      simp
    · rw [if_neg h2]
      exact capAt800_length_le _

/-! ## Claim C5: pacing and caps -/

/-- Times listed in order, the first no earlier than `b`, consecutive times
at least `g` apart. -/
inductive SpacedFrom (g : ℚ) : ℚ → List ℚ → Prop
  | nil (b : ℚ) : SpacedFrom g b []
  | cons {b t : ℚ} {ts : List ℚ} :
      b ≤ t → SpacedFrom g (t + g) ts → SpacedFrom g b (t :: ts)

theorem SpacedFrom.mono {g b b' : ℚ} {ts : List ℚ} (hb : b' ≤ b)
    (h : SpacedFrom g b ts) : SpacedFrom g b' ts := by
  cases h with
  | nil => exact SpacedFrom.nil b'
  | cons hbt hrest => exact SpacedFrom.cons (le_trans hb hbt) hrest

theorem SpacedFrom.mem_ge {g b : ℚ} {ts : List ℚ} (hg : 0 ≤ g)
    (h : SpacedFrom g b ts) : ∀ t ∈ ts, b ≤ t := by
  induction h with
  | nil => intro t ht; cases ht
  | cons hbt hrest ih =>
    intro u hu
    rcases List.mem_cons.mp hu with hu | hu
    · subst hu
      exact hbt
    · have := ih u hu
      linarith

/-- At most `n` of a `g`-spaced time list fall in any half-open window of
length `n * g`. -/
theorem SpacedFrom.count_window {g : ℚ} (hg : 0 < g) :
    ∀ {b : ℚ} {ts : List ℚ}, SpacedFrom g b ts → ∀ (a : ℚ) (n : Nat),
      ts.countP (fun t => decide (a ≤ t ∧ t < a + n * g)) ≤ n := by
  intro b ts h
  induction h with
  | nil => intro a n; simp
  | @cons b t ts hbt hrest ih =>
    intro a n
    rw [List.countP_cons]
    by_cases hin : a ≤ t ∧ t < a + n * g
    · have hn : n ≠ 0 := by
        intro h0
        subst h0
        push_cast at hin
        linarith [hin.1, hin.2]
      obtain ⟨m, hm⟩ := Nat.exists_eq_succ_of_ne_zero hn
      subst hm
      have hsub : ts.countP (fun u => decide (a ≤ u ∧ u < a + (m + 1 : Nat) * g)) ≤
          ts.countP (fun u => decide ((a + g) ≤ u ∧ u < (a + g) + m * g)) := by
        apply List.countP_mono_left
        intro u hu hpu
        simp only [decide_eq_true_eq] at hpu ⊢
        have hge : t + g ≤ u := hrest.mem_ge (le_of_lt hg) u hu
        constructor
        · have : a + g ≤ t + g := by linarith [hin.1]
          linarith
        · have : (((m + 1 : Nat) : ℚ)) * g = (m : ℚ) * g + g := by
            push_cast
            ring
          rw [this] at hpu
          linarith [hpu.2]
      have hrec := ih (a + g) m
      simp only [decide_eq_true_eq, hin, if_pos]
      calc ts.countP (fun u => decide (a ≤ u ∧ u < a + (m + 1 : Nat) * g)) + 1
          ≤ ts.countP (fun u => decide ((a + g) ≤ u ∧ u < (a + g) + m * g)) + 1 :=
            Nat.add_le_add_right hsub 1
        _ ≤ m + 1 := Nat.add_le_add_right hrec 1
    · simp only [decide_eq_true_eq, hin, if_neg, Nat.add_zero]
      exact ih a n

theorem effective_replies_per_hour_pos (cfg : Option Int) :
    1 ≤ effective_replies_per_hour cfg := by
  rw [effective_replies_per_hour]
  have h : (1 : Int) ≤ max 1 (intOrElse cfg 10) := le_max_left _ _
  omega

theorem spacing_min_pos (p : PacingParams) (hN : 1 ≤ p.repliesPerHour) :
    0 < spacing_min p := by
  have hq : (0 : ℚ) < (p.repliesPerHour : ℚ) := by
    exact_mod_cast Nat.lt_of_lt_of_le Nat.zero_lt_one hN
  have htarget : 0 < per_reply_target p := by
    rw [per_reply_target]
    positivity
  exact lt_of_lt_of_le htarget (le_max_right _ _)

theorem spacing_min_cap (p : PacingParams) (hN : 1 ≤ p.repliesPerHour) :
    3600 ≤ (p.repliesPerHour : ℚ) * spacing_min p := by
  have hq : (0 : ℚ) < (p.repliesPerHour : ℚ) := by
    exact_mod_cast Nat.lt_of_lt_of_le Nat.zero_lt_one hN
  have htarget : per_reply_target p ≤ spacing_min p := le_max_right _ _
  have h1 : (p.repliesPerHour : ℚ) * per_reply_target p = 3600 := by
    rw [per_reply_target]
    field_simp
  calc (3600 : ℚ) = (p.repliesPerHour : ℚ) * per_reply_target p := h1.symm
    _ ≤ (p.repliesPerHour : ℚ) * spacing_min p := by
        apply mul_le_mul_of_nonneg_left htarget (le_of_lt hq)

/-- Every session run's successful-reply times start no earlier than the
pending `next_reply_earliest` and are spaced at least `spacing_min` apart. -/
theorem sessionRun_spaced (p : PacingParams) (hN : 1 ≤ p.repliesPerHour) :
    ∀ {s : SchedState} {evs : List ReplyEvent} {s' : SchedState},
      SessionRun p s evs s' →
      SpacedFrom (spacing_min p) s.nextEarliest (evs.map ReplyEvent.time) := by
  intro s evs s' hrun
  induction hrun with
  | halt => exact SpacedFrom.nil _
  | advanceTime n' hn hrun ih => exact ih
  | hourWindowReset hw hrun ih => exact ih
  | hourlyCooldown n' hcap hn hrun ih =>
    exact ih.mono (le_max_left _ _)
  | @successfulReply s evs s' t tc d tweet_id handle hcap hhour hid hown hkey hnow hpace
      htc hdlo hdhi hrun ih =>
    refine SpacedFrom.cons hpace (ih.mono ?_)
    simp only []
    linarith
  | @failedReply s evs s' t tc d hcap hhour hnow hpace htc hdlo hdhi hrun ih =>
    refine ih.mono ?_
    simp only []
    have hg := spacing_min_pos p hN
    linarith

/-- The session never exceeds its total cap: the loop guard of main.py
line 335 admits a success only below `total_cap`, and each success adds one. -/
theorem sessionRun_total (p : PacingParams) :
    ∀ {s : SchedState} {evs : List ReplyEvent} {s' : SchedState},
      SessionRun p s evs s' → evs = [] ∨ s.repliesTotal + evs.length ≤ total_cap p := by
  intro s evs s' hrun
  induction hrun with
  | halt => exact Or.inl rfl
  | advanceTime n' hn hrun ih => exact ih
  | hourWindowReset hw hrun ih => exact ih
  | hourlyCooldown n' hcap hn hrun ih => exact ih
  | @successfulReply s evs s' t tc d tweet_id handle hcap hhour hid hown hkey hnow hpace
      htc hdlo hdhi hrun ih =>
    right
    rcases ih with ih | ih
    · subst ih
      simpa using hcap
    · simp only [List.length_cons]
      simp only [] at ih
      omega
  | @failedReply s evs s' t tc d hcap hhour hnow hpace htc hdlo hdhi hrun ih => exact ih

/-- Caps of one session run from a fresh initial state: at most
`repliesPerHour` successes in any rolling 3600-second window, and at most
`total_cap` successes overall. -/
theorem sessionRun_caps (p : PacingParams) (hN : 1 ≤ p.repliesPerHour) (start : ℚ)
    (store : List String) (evs : List ReplyEvent) (s' : SchedState)
    (hrun : SessionRun p (initialState start store) evs s') :
    (∀ a : ℚ, (evs.map ReplyEvent.time).countP
      (fun t => decide (a ≤ t ∧ t < a + 3600)) ≤ p.repliesPerHour) ∧
    evs.length ≤ total_cap p := by
  constructor
  · intro a
    have hsp := sessionRun_spaced p hN hrun
    have hcount := SpacedFrom.count_window (spacing_min_pos p hN) hsp a p.repliesPerHour
    refine le_trans (List.countP_mono_left ?_) hcount
    intro x hx hpx
    simp only [decide_eq_true_eq] at hpx ⊢
    have hcap := spacing_min_cap p hN
    exact ⟨hpx.1, lt_of_lt_of_le hpx.2 (by linarith)⟩
  · rcases sessionRun_total p hrun with h | h
    · subst h
      simp
    · have h0 : (initialState start store).repliesTotal = 0 := rfl
      omega

/-- C5: for every home-timeline reply session with the effective parameters
derived from the configuration (main.py lines 191-195), the number of
successful replies in any rolling one-hour window never exceeds the
per-hour cap, and the session total never exceeds per-hour cap × max hours. -/
theorem C5_hourly_and_session_caps (cfgN cfgH : Option Int) (cfgMin cfgMax : ℚ)
    (sEnd : ℚ) (account_id : String) (isOwn : String → Bool) (start : ℚ)
    (store : List String) (evs : List ReplyEvent) (s' : SchedState)
    (hrun : SessionRun
      { repliesPerHour := effective_replies_per_hour cfgN
        maxHours := effective_max_hours cfgH
        minDelay := effective_min_delay cfgMin
        maxDelay := effective_max_delay (effective_min_delay cfgMin) cfgMax
        sessionEnd := sEnd, accountId := account_id, isOwn := isOwn }
      (initialState start store) evs s') :
    (∀ a : ℚ, (evs.map ReplyEvent.time).countP
      (fun t => decide (a ≤ t ∧ t < a + 3600)) ≤ effective_replies_per_hour cfgN) ∧
    evs.length ≤ effective_replies_per_hour cfgN * effective_max_hours cfgH := by
  have h := sessionRun_caps _ (effective_replies_per_hour_pos cfgN) start store evs s' hrun
  exact ⟨h.1, h.2⟩

/-! ## Claim C4: dedup idempotence -/

theorem contains_iff_mem_str (l : List String) (a : String) :
    l.contains a = true ↔ a ∈ l := List.elem_iff

/-- Within one session run: acted-on keys were absent from the in-memory set
at the time read (main.py line 397), never repeat, and end up recorded
(main.py lines 515-516); recorded keys are never dropped. -/
theorem sessionRun_dedup (p : PacingParams) :
    ∀ {s : SchedState} {evs : List ReplyEvent} {s' : SchedState},
      SessionRun p s evs s' →
      (∀ e ∈ evs, e.key ∉ s.processed) ∧
      (evs.map ReplyEvent.key).Nodup ∧
      (∀ k, k ∈ s.processed → k ∈ s'.processed) ∧
      (∀ e ∈ evs, e.key ∈ s'.processed) := by
  intro s evs s' hrun
  induction hrun with
  | halt => exact ⟨by simp, by simp, fun k h => h, by simp⟩
  | advanceTime n' hn hrun ih => exact ih
  | hourWindowReset hw hrun ih => exact ih
  | hourlyCooldown n' hcap hn hrun ih => exact ih
  | @successfulReply s evs s' t tc d tweet_id handle hcap hhour hid hown hkey hnow hpace
      htc hdlo hdhi hrun ih =>
    obtain ⟨ih1, ih2, ih3, ih4⟩ := ih
    have hkmem : home_reply_action_key p.accountId tweet_id ∉ s.processed := by
      intro hmem
      exact hkey ((contains_iff_mem_str _ _).mpr hmem)
    refine ⟨?_, ?_, ?_, ?_⟩
    · intro e he
      rcases List.mem_cons.mp he with he | he
      · subst he
        exact hkmem
      · intro hc
        exact (ih1 e he) (List.mem_cons_of_mem _ hc)
    · rw [List.map_cons]
      refine List.nodup_cons.mpr ⟨?_, ih2⟩
      intro hmem
      obtain ⟨e, he, hek⟩ := List.mem_map.mp hmem
      exact (ih1 e he) (by rw [hek]; exact List.mem_cons_self _ _)
    · intro k hk
      exact ih3 k (List.mem_cons_of_mem _ hk)
    · intro e he
      rcases List.mem_cons.mp he with he | he
      · subst he
        exact ih3 _ (List.mem_cons_self _ _)
      · exact ih4 e he
  | @failedReply s evs s' t tc d hcap hhour hnow hpace htc hdlo hdhi hrun ih => exact ih

/-- C4: across any sequence of sessions threaded through the persistent
dedup store, every successfully acted-on key was absent from the store at
its session's start, no key is ever acted on twice (within a session or
across sessions), and every acted-on key is in the final store. -/
theorem C4_dedup_idempotence (p : PacingParams) :
    ∀ {store : List String} {evsAll : List ReplyEvent} {store' : List String},
      MultiSessionRun p store evsAll store' →
      (∀ e ∈ evsAll, e.key ∉ store) ∧
      (evsAll.map ReplyEvent.key).Nodup ∧
      (∀ k, k ∈ store → k ∈ store') ∧
      (∀ e ∈ evsAll, e.key ∈ store') := by
  intro store evsAll store' hrun
  induction hrun with
  | nil => exact ⟨by simp, by simp, fun k h => h, by simp⟩
  | @cons store evs1 rest store' start s1 hsess hrest ih =>
    obtain ⟨s1a, s1b, s1c, s1d⟩ := sessionRun_dedup p hsess
    obtain ⟨r1, r2, r3, r4⟩ := ih
    refine ⟨?_, ?_, ?_, ?_⟩
    · intro e he
      rcases List.mem_append.mp he with he | he
      · exact s1a e he
      · intro hmem
        exact (r1 e he) (s1c e.key hmem)
    · rw [List.map_append]
      rw [List.nodup_append]
      refine ⟨s1b, r2, ?_⟩
      intro k hk1 hk2
      obtain ⟨e1, he1, hek1⟩ := List.mem_map.mp hk1
      obtain ⟨e2, he2, hek2⟩ := List.mem_map.mp hk2
      have hin : k ∈ s1.processed := hek1 ▸ s1d e1 he1
      exact (r1 e2 he2) (hek2 ▸ hin)
    · intro k hk
      exact r3 k (s1c k hk)
    · intro e he
      rcases List.mem_append.mp he with he | he
      · exact r3 e.key (s1d e he)
      · exact r4 e he

/-- Concrete session parameters for the scheduler witnesses: one reply per
hour, one hour, configured delays 10/20 seconds. -/
def demoParams : PacingParams :=
  { repliesPerHour := effective_replies_per_hour (some 1)
    maxHours := effective_max_hours (some 1)
    minDelay := effective_min_delay 10
    maxDelay := effective_max_delay (effective_min_delay 10) 20
    sessionEnd := 7200
    accountId := "acct"
    isOwn := fun _ => false }

/-- A one-success session run of `demoParams` from an empty store. -/
theorem demoSessionA : SessionRun demoParams (initialState 0 [])
    [⟨0, home_reply_action_key "acct" "t1"⟩]
    { now := 0, hourStart := 0, repliesThisHour := 1, repliesTotal := 1,
      nextEarliest := (0 : ℚ) + 3600,
      processed := [home_reply_action_key "acct" "t1"] } := by
  refine SessionRun.successfulReply 0 0 3600 "t1" "u" ?_ ?_ ?_ ?_ ?_ ?_ ?_ ?_ ?_ ?_
    (SessionRun.halt _)
  · decide
  · decide
  · decide
  · rfl
  · decide
  · norm_num [initialState]
  · norm_num [initialState]
  · norm_num
  · norm_num [demoParams, spacing_min, per_reply_target, effective_min_delay,
      effective_replies_per_hour, intOrElse]
  · norm_num [demoParams, spacing_max, spacing_min, per_reply_target, effective_min_delay,
      effective_max_delay, effective_replies_per_hour, intOrElse]

/-- A one-success session run of `demoParams` from a store already holding
the first session's key. -/
theorem demoSessionB : SessionRun demoParams
    (initialState 100 [home_reply_action_key "acct" "t1"])
    [⟨100, home_reply_action_key "acct" "t2"⟩]
    { now := 100, hourStart := 100, repliesThisHour := 1, repliesTotal := 1,
      nextEarliest := (100 : ℚ) + 3600,
      processed := [home_reply_action_key "acct" "t2", home_reply_action_key "acct" "t1"] } := by
  refine SessionRun.successfulReply 100 100 3600 "t2" "u" ?_ ?_ ?_ ?_ ?_ ?_ ?_ ?_ ?_ ?_
    (SessionRun.halt _)
  · decide
  · decide
  · decide
  · rfl
  · decide
  · norm_num [initialState]
  · norm_num [initialState]
  · norm_num
  · norm_num [demoParams, spacing_min, per_reply_target, effective_min_delay,
      effective_replies_per_hour, intOrElse]
  · norm_num [demoParams, spacing_max, spacing_min, per_reply_target, effective_min_delay,
      effective_max_delay, effective_replies_per_hour, intOrElse]

/-- C5 witness: the caps applied to a concretely constructed one-success
session, window anchored at 0. -/
theorem C5_hourly_and_session_caps_witness :
    (([⟨(0 : ℚ), home_reply_action_key "acct" "t1"⟩] : List ReplyEvent).map
        ReplyEvent.time).countP (fun t => decide ((0 : ℚ) ≤ t ∧ t < 0 + 3600)) ≤
      effective_replies_per_hour (some 1) ∧
    ([⟨(0 : ℚ), home_reply_action_key "acct" "t1"⟩] : List ReplyEvent).length ≤
      effective_replies_per_hour (some 1) * effective_max_hours (some 1) := by
  have h := C5_hourly_and_session_caps (some 1) (some 1) 10 20 7200 "acct"
    (fun _ => false) 0 [] [⟨0, home_reply_action_key "acct" "t1"⟩] _ demoSessionA
  exact ⟨h.1 0, h.2⟩

/-- C4 witness: two sessions threaded through the store — the acted-on keys
are pairwise distinct and were absent from the initial store, by the
theorem applied to the constructed multi-session run. -/
theorem C4_dedup_idempotence_witness :
    ((((([⟨(0 : ℚ), home_reply_action_key "acct" "t1"⟩] : List ReplyEvent)) ++
        (([⟨(100 : ℚ), home_reply_action_key "acct" "t2"⟩] : List ReplyEvent) ++ [])).map
          ReplyEvent.key).Nodup) ∧
    (∀ e ∈ ((([⟨(0 : ℚ), home_reply_action_key "acct" "t1"⟩] : List ReplyEvent)) ++
        (([⟨(100 : ℚ), home_reply_action_key "acct" "t2"⟩] : List ReplyEvent) ++ [])),
      e.key ∉ ([] : List String)) := by
  have hmulti : MultiSessionRun demoParams []
      (([⟨(0 : ℚ), home_reply_action_key "acct" "t1"⟩] : List ReplyEvent) ++
        (([⟨(100 : ℚ), home_reply_action_key "acct" "t2"⟩] : List ReplyEvent) ++ []))
      [home_reply_action_key "acct" "t2", home_reply_action_key "acct" "t1"] :=
    MultiSessionRun.cons 0 _ demoSessionA
      (MultiSessionRun.cons 100 _ demoSessionB (MultiSessionRun.nil _))
  have h := C4_dedup_idempotence demoParams hmulti
  exact ⟨h.2.1, h.1⟩

end TwitterAuto
